import Mathlib

/-!
# vci-service-dns: dynamic-DNS reconciliation and DHCP nameserver forwarding

A shallow embedding of `internal/dynamic/config.go` and
`internal/forwarding/dhcp.go`.

Conventions of the embedding:

* The slices of the configuration snapshot are values of `Slice`, which keeps
  the nil slice apart from an empty one, Go structs are Lean structures, and
  `reflect.DeepEqual` on these types is structural equality.  Slices that are
  only ranged over or measured are Lean lists.
* A Go `map[string]T` is an association list with at most one entry per key
  (`GoMap`).  Go leaves the iteration order of `range` over a map unspecified;
  every such loop iterates over `shuffle seeds entries`, a permutation selected
  by an arbitrary list of seeds.
* Side effects (process control, file system calls, log lines) are recorded in
  a trace of `Event`s.  Which of those calls fail is decided by a `World`
  oracle, over which every statement quantifies.
* A method call on a nil `process.Process` panics; functions that can panic
  return `Option`, with `none` standing for the panic.
* Events and file systems name files by path strings.  Where it matters that
  two path strings name one file, the file system carries the resolution of
  paths (`Files.resolve`), and `cleanPath` gives the lexical case of it.
-/

namespace VyattaDns

/-! ## Go maps and map iteration -/

/-- Go `map[string]α`: association list, one entry per key. -/
abbrev GoMap (α : Type) := List (String × α)

namespace GoMap

/-- Lookup `m[k]` with the `ok` flag: `none` when the key is missing. -/
def get? {α : Type} : GoMap α → String → Option α
  | [], _ => none
  | (k', v) :: rest, k => if k' = k then some v else get? rest k

/-- Assignment `m[k] = v`: replaces the entry of `k` or adds a new one. -/
def set {α : Type} : GoMap α → String → α → GoMap α
  | [], k, v => [(k, v)]
  | (k', v') :: rest, k, v =>
    if k' = k then (k, v) :: rest else (k', v') :: set rest k v

/-- The keys of the map, in storage order. -/
def keys {α : Type} (m : GoMap α) : List String := m.map Prod.fst

end GoMap

/-- Insert `x` at position `i` of `l`. -/
def insertAt {β : Type} (i : Nat) (x : β) (l : List β) : List β :=
  l.take i ++ x :: l.drop i

/-- The order in which a `range` loop visits the entries of a map: each entry
is inserted at a seed-selected position among the entries behind it, so every
seed list gives a permutation and every permutation is given by some seeds. -/
def shuffle {β : Type} : List Nat → List β → List β
  | _, [] => []
  | seeds, x :: xs =>
    let r := shuffle seeds.tail xs
    insertAt (seeds.headD 0 % (r.length + 1)) x r

/-! ## Data model of `internal/dynamic` -/

/-- A Go slice: `none` is the nil slice, `some l` a slice that is not nil and
holds the elements `l`.  Two slices are deeply equal when both are nil, or
neither is and the elements are deeply equal. -/
abbrev Slice (α : Type) := Option (List α)

/-- The elements a `range` loop over the slice visits. -/
def Slice.toList {α : Type} : Slice α → List α
  | none => []
  | some l => l

structure ServiceConfigData where
  Name : String
  Password : String
  Login : String
  Server : String
  HostName : Slice String
  deriving DecidableEq, Repr

structure InterfaceConfigData where
  Name : String
  Service : Slice ServiceConfigData
  deriving DecidableEq, Repr

structure ConfigData where
  Interface : Slice InterfaceConfigData
  deriving DecidableEq, Repr

/-- The zero value of `InterfaceConfigData`, the result of indexing a map at a
missing key. -/
def zeroInterface : InterfaceConfigData := ⟨"", none⟩

/-- Modelled from the spec: the process handle of package `process`, which is
not part of the sources at hand.  A handle offers Stop and Reload and is keyed
by the unit name it was constructed from; `id` is the identity of the object
(two constructor calls never return the same object). -/
structure Handle where
  unitName : String
  id : Nat
  deriving DecidableEq, Repr

/-- A format string with a single `%s` verb, `pre ++ "%s" ++ post`. -/
structure PathFmt where
  pre : String
  post : String
  deriving DecidableEq, Repr

/-- The result of `fmt.Sprintf(f, arg)`. -/
def PathFmt.apply (f : PathFmt) (arg : String) : String := f.pre ++ arg ++ f.post

/-- The receiver of the methods of `config.go`.  `nextId` is the number of
handles constructed so far by `pCons`. -/
structure Config where
  currentConfig : ConfigData
  runningInterfaces : GoMap Handle
  instanceName : String
  ddclientRunDir : String
  ddclientCacheDir : String
  ddclientConfigDir : String
  ddclientEnvDirFmt : PathFmt
  nextId : Nat
  deriving DecidableEq, Repr

/-- The options of `NewConfig` that set a directory or the format of the
environment directory. -/
inductive ConfigOpt where
  | DDClientRunDir (dir : String)
  | DDClientCacheDir (dir : String)
  | DDClientConfigDir (dir : String)
  | DDClientEnvDirFmt (fmt : PathFmt)
  deriving DecidableEq, Repr

def ConfigOpt.run : ConfigOpt → Config → Config
  | .DDClientRunDir dir, c => { c with ddclientRunDir := dir }
  | .DDClientCacheDir dir, c => { c with ddclientCacheDir := dir }
  | .DDClientConfigDir dir, c => { c with ddclientConfigDir := dir }
  | .DDClientEnvDirFmt fmt, c => { c with ddclientEnvDirFmt := fmt }

/-- The value `conf` of `NewConfig` before the options are applied. -/
def defaultConfig : Config :=
  { currentConfig := ⟨none⟩
    runningInterfaces := []
    instanceName := "default"
    ddclientRunDir := "/var/run/ddclient"
    ddclientCacheDir := "/var/cache/ddclient"
    ddclientConfigDir := "/etc/ddclient"
    ddclientEnvDirFmt := ⟨"/run/dns/", ""⟩
    nextId := 0 }

def NewConfig (opts : List ConfigOpt) : Config :=
  opts.foldl (fun c opt => opt.run c) defaultConfig

def NewInstanceConfig (name : String) (opts : List ConfigOpt) : Config :=
  { NewConfig opts with instanceName := name }

/-- The calls `Set` makes to the process supervisor, the file system and the
logger.  `openFile` is `os.OpenFile(path, O_RDWR|O_CREATE|O_TRUNC, 0644)`,
`write` is the execution of a template into the opened file, `mkdirAllDirOf p`
is `os.MkdirAll(filepath.Dir(p), 0755)`. -/
inductive Event where
  | stop (h : Handle)
  | reload (h : Handle)
  | remove (path : String)
  | removeAll (dir : String)
  | mkdirAll (dir : String)
  | mkdirAllDirOf (path : String)
  | openFile (path : String)
  | write (path : String) (text : String)
  | close (path : String)
  | log (origin : String)
  deriving DecidableEq, Repr

/-- What the environment answers during one call of `Set`: the current time as
formatted by the `Date` template function, which calls fail, and the orders in
which the two loops over maps visit their entries. -/
structure World where
  date : String
  stopFails : Handle → Bool
  reloadFails : Handle → Bool
  removeFails : String → Bool
  removeAllFails : String → Bool
  mkdirFails : String → Bool
  openFails : String → Bool
  writeFails : String → Bool
  stopOrder : List Nat
  updateOrder : List Nat

/-! ## Template rendering (`cfgFile`, `envFile`) -/

def mapServiceNames (s : String) : String :=
  if s = "dslreports" then "dslreports1"
  else if s = "dyndns" then "dyndns2"
  else if s = "zoneedit" then "zoneedit1"
  else s

/-- One pass through the body of the inner `range .HostName` of `cfgFile`,
appending to the text written so far.  The trim markers of the template remove
the line breaks after the `range`, `if` and `end` actions, so the body is the
protocol line, the optional server line, and the four remaining lines followed
by an empty line. -/
def execHostName (buf : String) (service : ServiceConfigData) (host : String) : String :=
  let buf := buf ++ "protocol=" ++ mapServiceNames service.Name ++ "\n"
  let buf := if service.Server ≠ "" then buf ++ "server=" ++ service.Server ++ ",\n" else buf
  buf ++ "max-interval=28d\nlogin=" ++ service.Login ++ "\npassword=" ++ service.Password
    ++ "\n" ++ host ++ "\n\n"

/-- The body of the outer `range .Conf.Service`: the inner range. -/
def execService (buf : String) (service : ServiceConfigData) : String :=
  service.HostName.toList.foldl (fun b host => execHostName b service host) buf

/-- The text `writeConfig` writes: `cfgFileTemplate` executed on the pid file,
the cache file and the interface; `date` is the result of the `Date` function. -/
def writeConfig (date cacheFile pidFile : String) (c : InterfaceConfigData) : String :=
  let buf := "#\n# autogenerated by vci-service-dns on " ++ date ++ "\n#\ndaemon=1m\nsyslog=yes\nssl=yes\npid="
    ++ pidFile ++ "\ncache=" ++ cacheFile ++ "\nuse=if, if=" ++ c.Name ++ "\n\n\n"
  c.Service.toList.foldl execService buf

/-- The text `writeEnvFile` writes. -/
def writeEnvFile (instanceName confFile : String) : String :=
  "#\n# autogenerated by vci-service-dns\n#\nDDCLIENT_VRF_NAME=" ++ instanceName
    ++ "\nDDCLIENT_IF_CONF=" ++ confFile ++ "\n"

/-! ## The reconciliation pass (`Config.Set`) -/

namespace Config

/-- The unit name `fmt.Sprintf(ddclientUnitFmt, intf)`. -/
def unitOf (intf : String) : String := "ddclient@" ++ intf ++ ".service"

def confFile (c : Config) (intf : String) : String :=
  c.ddclientConfigDir ++ "/" ++ "ddclient_" ++ intf ++ ".conf"

def pidFile (c : Config) (intf : String) : String :=
  c.ddclientRunDir ++ "/" ++ "ddclient_" ++ intf ++ ".pid"

def cacheFile (c : Config) (intf : String) : String :=
  c.ddclientCacheDir ++ "/" ++ "ddclient_" ++ intf ++ ".cache"

def envFile (c : Config) (intf : String) : String :=
  c.ddclientEnvDirFmt.apply intf ++ "/" ++ "ddclient.env"

def Get (c : Config) : ConfigData := c.currentConfig

/-- The loops of `Set` that index a snapshot by interface name; a later entry
of a name overwrites an earlier one. -/
def indexByName (l : List InterfaceConfigData) : GoMap InterfaceConfigData :=
  l.foldl (fun m intf => m.set intf.Name intf) []

/-- The interfaces of the stored snapshot that are missing from `new`, each
with `runningIntf[intf.Name]`, which is nil (`none`) at a missing key. -/
def getInactiveInterfaces (c : Config) (new : GoMap InterfaceConfigData) :
    GoMap (Option Handle) :=
  c.Get.Interface.toList.foldl
    (fun out intf =>
      match new.get? intf.Name with
      | some _ => out
      | none => out.set intf.Name (c.runningInterfaces.get? intf.Name))
    []

/-- Log line written when `failed`. -/
def logIf (failed : Bool) (origin : String) : List Event :=
  if failed then [Event.log origin] else []

/-- Removal of one file in the loop of `stopInterface`. -/
def removeFile (w : World) (intf file : String) : List Event :=
  Event.remove file :: logIf (w.removeFails file) ("stop-interface " ++ intf)

/-- The slice `files` of `stopInterface`. -/
def interfaceFiles (c : Config) (intf : String) : List String :=
  [c.confFile intf, c.pidFile intf, c.cacheFile intf, c.envFile intf]

/-- The calls of `stopInterface` on a handle that is not nil. -/
def stopEvents (c : Config) (w : World) (intf : String) (h : Handle) : List Event :=
  Event.stop h :: logIf (w.stopFails h) ("stop-interface " ++ intf)
    ++ (c.interfaceFiles intf).flatMap (removeFile w intf)

/-- Stop of one interface; `none` is the panic of `proc.Stop()` on nil. -/
def stopInterface (c : Config) (w : World) (intf : String) (proc : Option Handle) :
    Option (List Event) :=
  match proc with
  | none => none
  | some h => some (c.stopEvents w intf h)

/-- The loop of `stopInactiveInterfaces` over the entries in visiting order. -/
def stopEach (c : Config) (w : World) : List (String × Option Handle) → Option (List Event)
  | [] => some []
  | (intf, proc) :: rest =>
    match stopInterface c w intf proc with
    | none => none
    | some t => (stopEach c w rest).map (fun t' => t ++ t')

def stopInactiveInterfaces (c : Config) (w : World) (new : GoMap InterfaceConfigData) :
    Option (List Event) :=
  stopEach c w (shuffle w.stopOrder (c.getInactiveInterfaces new))

def ensureEnvironment (c : Config) (w : World) : List Event :=
  [c.ddclientConfigDir, c.ddclientRunDir, c.ddclientCacheDir].flatMap
    (fun dir => Event.mkdirAll dir :: logIf (w.mkdirFails dir) "ensure-environment")

def updateInterface (c : Config) (w : World) (intf : InterfaceConfigData) (proc : Handle) :
    List Event :=
  let confFile := c.confFile intf.Name
  let pidFile := c.pidFile intf.Name
  let cacheFile := c.cacheFile intf.Name
  let envFile := c.envFile intf.Name
  if w.openFails confFile then
    [Event.openFile confFile, Event.log "update-interface"]
  else
    let t1 := [Event.openFile confFile,
               Event.write confFile (writeConfig w.date cacheFile pidFile intf)]
      ++ logIf (w.writeFails confFile) "update-interface"
      ++ [Event.close confFile, Event.mkdirAllDirOf envFile]
    if w.openFails envFile then
      t1 ++ [Event.openFile envFile, Event.log "update-interface"]
    else
      t1 ++ [Event.openFile envFile,
             Event.write envFile (writeEnvFile c.instanceName confFile)]
        ++ logIf (w.writeFails envFile) "update-interface"
        ++ [Event.close envFile, Event.reload proc]
        ++ logIf (w.reloadFails proc) "update-interface"

/-- The state of the loop of `updateActiveInterfaces`: the map `newProcs`, the
number of handles constructed so far, and the calls made so far. -/
structure UpdateState where
  newProcs : GoMap Handle
  nextId : Nat
  trace : List Event

/-- One iteration of the loop of `updateActiveInterfaces`. -/
def updateStep (c : Config) (w : World) (old : GoMap InterfaceConfigData)
    (st : UpdateState) (entry : String × InterfaceConfigData) : UpdateState :=
  let intf := entry.2
  let knownProcs := c.runningInterfaces
  let proc : Handle :=
    match knownProcs.get? intf.Name with
    | some p => p
    | none => ⟨unitOf intf.Name, st.nextId⟩
  let nextId := match knownProcs.get? intf.Name with
    | some _ => st.nextId
    | none => st.nextId + 1
  let newProcs := st.newProcs.set intf.Name proc
  if intf = (old.get? intf.Name).getD zeroInterface then
    { newProcs := newProcs, nextId := nextId, trace := st.trace }
  else
    { newProcs := newProcs, nextId := nextId,
      trace := st.trace ++ c.updateInterface w intf proc }

def updateActiveInterfaces (c : Config) (w : World)
    (old new : GoMap InterfaceConfigData) : UpdateState :=
  (shuffle w.updateOrder new).foldl (updateStep c w old) ⟨[], c.nextId, []⟩

def cleanupEnvironment (c : Config) (w : World) : List Event :=
  [c.ddclientRunDir, c.ddclientCacheDir].flatMap
    (fun dir => Event.removeAll dir :: logIf (w.removeAllFails dir) "cleanup")

/-- The map `newInterfaces` of `Set`: empty for the nil snapshot. -/
def newInterfacesOf (new : Option ConfigData) : GoMap InterfaceConfigData :=
  match new with
  | some n => indexByName n.Interface.toList
  | none => []

/-- What a call of `Set` that returns leaves behind: the receiver afterwards,
the calls made, and the returned error (`none` is the nil error). -/
structure SetResult where
  config : Config
  trace : List Event
  err : Option String

/-- `Config.Set`; the argument `none` is the nil snapshot, the result `none`
is a panic. -/
def Set (c : Config) (new : Option ConfigData) (w : World) : Option SetResult :=
  let newInterfaces := newInterfacesOf new
  let oldInterfaces := indexByName c.Get.Interface.toList
  match c.stopInactiveInterfaces w newInterfaces with
  | none => none
  | some t1 =>
    let t2 := c.ensureEnvironment w
    let st := c.updateActiveInterfaces w oldInterfaces newInterfaces
    let c1 : Config := { c with runningInterfaces := st.newProcs, nextId := st.nextId }
    match new with
    | some n =>
      some { config := { c1 with currentConfig := n }, trace := t1 ++ t2 ++ st.trace,
             err := none }
    | none =>
      some { config := { c1 with currentConfig := ⟨none⟩ },
             trace := t1 ++ t2 ++ st.trace ++ c.cleanupEnvironment w, err := none }

end Config

/-- The states of a `Config` built by `NewConfig` or `NewInstanceConfig` and
driven by calls of `Set` that return. -/
inductive Reachable : Config → Prop
  | new (opts : List ConfigOpt) : Reachable (NewConfig opts)
  | newInstance (name : String) (opts : List ConfigOpt) :
      Reachable (NewInstanceConfig name opts)
  | set {c : Config} (new : Option ConfigData) (w : World) (r : Config.SetResult) :
      Reachable c → c.Set new w = some r → Reachable r.config

/-- The invariant of the reachable states: the running map has a handle for
exactly the interface names of the stored snapshot, and the handle stored for a
name was constructed from the unit name of that interface. -/
structure Config.Inv (c : Config) : Prop where
  keys : ∀ n, n ∈ c.runningInterfaces.keys ↔ n ∈ c.currentConfig.Interface.toList.map (fun i => i.Name)
  units : ∀ n h, c.runningInterfaces.get? n = some h → h.unitName = Config.unitOf n

/-- A world in which no call fails and maps are visited in storage order. -/
def calmWorld : World :=
  { date := "Thu Jan  1 00:00:00 UTC 1970"
    stopFails := fun _ => false
    reloadFails := fun _ => false
    removeFails := fun _ => false
    removeAllFails := fun _ => false
    mkdirFails := fun _ => false
    openFails := fun _ => false
    writeFails := fun _ => false
    stopOrder := []
    updateOrder := [] }

/-! ## `internal/forwarding`: the DHCP nameserver watcher -/

/-- A path with every run of slashes replaced by a single slash.  Both paths
name the same file: pathname resolution takes a run of slashes for one. -/
def collapseSlashes : List Char → List Char
  | [] => []
  | ch :: rest =>
    if ch = Char.ofNat 47 ∧ rest.head? = some (Char.ofNat 47) then collapseSlashes rest
    else ch :: collapseSlashes rest

/-- The path `p` with its runs of slashes collapsed. -/
def cleanPath (p : String) : String := String.mk (collapseSlashes p.data)

/-- A file system: the file each path resolves to (two paths may name one
file), and the content of every existing file. -/
structure Files where
  resolve : String → String
  content : String → Option String

/-- The content of the file at `path`, `none` when there is no such file. -/
def Files.get (fs : Files) (path : String) : Option String := fs.content (fs.resolve path)

/-- The file system after the file at `path` has been given the content `text`. -/
def Files.put (fs : Files) (path text : String) : Files :=
  { fs with content := fun file => if file = fs.resolve path then some text else fs.content file }

/-- The line separator of `byline`, `\n`. -/
def newlineChar : Char := Char.ofNat 10

/-- The characters removed by `strings.Trim(server, "'")`. -/
def isQuote (ch : Char) : Bool := ch == Char.ofNat 39

/-- The field separator `[= ]`. -/
def isFieldSep (ch : Char) : Bool := ch == Char.ofNat 61 || ch == Char.ofNat 32

/-- `regexp.Split(s, -1)` for an expression that matches single characters:
the pieces between the matching characters, empty pieces included. -/
def splitOnChars (p : Char → Bool) : List Char → List (List Char)
  | [] => [[]]
  | ch :: rest =>
    match splitOnChars p rest with
    | [] => [[]]
    | piece :: pieces => if p ch then [] :: piece :: pieces else (ch :: piece) :: pieces

/-- Match of a regular expression without operators: `pat` occurs in the text. -/
def containsChars (pat : List Char) : List Char → Bool
  | [] => pat.isPrefixOf []
  | ch :: rest => pat.isPrefixOf (ch :: rest) || containsChars pat rest

/-- The marker of the nameserver line of a lease file. -/
def dhcpMarker : String := "new_domain_name_servers"

/-- The function `strings.Trim(s, "'")`. -/
def trimQuotes (s : List Char) : List Char :=
  ((s.dropWhile isQuote).reverse.dropWhile isQuote).reverse

/-- The callback given to `AWKMode`: appends the trimmed fields after the
first one to `ns`. -/
def appendServers (ns : List String) (fields : List (List Char)) : List String :=
  (fields.drop 1).foldl (fun ns server => ns ++ [String.mk (trimQuotes server)]) ns

/-- The `io.Reader` handed to `readDhcpNameservers`: the content of the opened
lease file, and the number of characters after which a read fails with an
error (`none`: the file is read to its end). -/
structure LeaseReader where
  content : String
  failAfter : Option Nat

/-- The characters the reader returns before the end of the file or the read
error; the scanner treats both as the end of the input. -/
def LeaseReader.chars (r : LeaseReader) : List Char :=
  match r.failAfter with
  | none => r.content.data
  | some k => r.content.data.take k

/-- The constant `bufio.MaxScanTokenSize`, the size of the buffer of the
scanner behind `byline`. -/
def maxScanTokenSize : Nat := 65536

/-- The number of bytes of a line (without its separator) in UTF-8. -/
def lineBytes (line : List Char) : Nat := (line.map Char.utf8Size).sum

/-- The lines of a text, without the separator. -/
def rawLines (text : List Char) : List (List Char) :=
  splitOnChars (fun ch => ch == newlineChar) text

/-- The lines the scanner delivers: it stops with `token too long` at the
first line that does not fit its buffer, a line of `maxScanTokenSize` bytes or
more; the lines before that one have been delivered. -/
def scannedLines : List (List Char) → List (List Char)
  | [] => []
  | line :: rest =>
    if maxScanTokenSize ≤ lineBytes line then [] else line :: scannedLines rest

/-- The lines of a lease file that `byline` hands to its filters before the
reader ends or fails. -/
def leaseLines (r : LeaseReader) : List (List Char) :=
  scannedLines (rawLines r.chars)

/-- The function `readDhcpNameservers`: the delivered lines that match the
marker are split into fields and handed to the callback; an error of the
reader is logged and the list gathered so far is returned. -/
def readDhcpNameservers (r : LeaseReader) : List String :=
  (leaseLines r).foldl
    (fun ns line =>
      if containsChars dhcpMarker.data line then appendServers ns (splitOnChars isFieldSep line)
      else ns)
    []

/-- The text `writeDnsmasqDhcpConfig` writes, `none` when it returns before
executing the template.  The trim markers of `dhcpFile` remove the line breaks
after the variable, `range` and `end` actions. -/
def writeDnsmasqDhcpConfig (intf : String) (ns : List String) : Option String :=
  if ns.length = 0 then none
  else some (ns.foldl
    (fun buf server => buf ++ "server=" ++ server ++ "\t# dhcp " ++ intf ++ "\n")
    "### Autogenerated by vci-service-dns\n### Note: Manual changes to this file will be lost.\n")

structure dhcpWatcher where
  proc : Handle
  fileToIntf : GoMap String
  confFileFmt : PathFmt

/-- What the environment answers to the watcher: which lease files cannot be
opened for reading, after how many characters the reading of a lease file
fails (`none`: it does not), which config files cannot be opened for writing,
after how many characters a write fails (`none`: it succeeds), whether Reload
fails, and the order of the loop over `fileToIntf`. -/
structure WatchWorld where
  openFails : String → Bool
  readFailsAfter : String → Option Nat
  createFails : String → Bool
  writeFailsAfter : String → Option Nat
  reloadFails : Handle → Bool
  startOrder : List Nat

/-- The outcome of a method of the watcher: the file system afterwards, the
Reload calls made, and the returned error (`none` is nil). -/
structure WatchResult where
  files : Files
  reloads : List Handle
  err : Option String

namespace dhcpWatcher

/-- The method `writeConffileFromDhclient`.  The lease file is opened first, the
config file is created or truncated next, and only then is the lease file
read and the config written. -/
def writeConffileFromDhclient (w : dhcpWatcher) (env : WatchWorld) (fs : Files)
    (dhclientFile : String) : WatchResult :=
  match fs.get dhclientFile with
  | none => ⟨fs, [], some "open"⟩
  | some _ =>
    if env.openFails dhclientFile then ⟨fs, [], some "open"⟩
    else
      let intf := (w.fileToIntf.get? dhclientFile).getD ""
      let conf := w.confFileFmt.apply intf
      if env.createFails conf then ⟨fs, [], some "open"⟩
      else
        let fs1 := fs.put conf ""
        let f : LeaseReader :=
          { content := (fs1.get dhclientFile).getD ""
            failAfter := env.readFailsAfter dhclientFile }
        match writeDnsmasqDhcpConfig intf (readDhcpNameservers f) with
        | none => ⟨fs1, [], none⟩
        | some text =>
          match env.writeFailsAfter conf with
          | some k => ⟨fs1.put conf (String.mk (text.data.take k)), [], some "write"⟩
          | none => ⟨fs1.put conf text, [], none⟩

def createOrWrite (w : dhcpWatcher) (env : WatchWorld) (fs : Files) (name : String) :
    WatchResult :=
  let r := w.writeConffileFromDhclient env fs name
  match r.err with
  | some e => ⟨r.files, [], some e⟩
  | none => ⟨r.files, [w.proc], if env.reloadFails w.proc then some "reload" else none⟩

def Write (w : dhcpWatcher) (env : WatchWorld) (fs : Files) (name : String) : WatchResult :=
  w.createOrWrite env fs name

def Create (w : dhcpWatcher) (env : WatchWorld) (fs : Files) (name : String) : WatchResult :=
  w.createOrWrite env fs name

end dhcpWatcher

/-- The part of `startDhcpWatcher` before the file system watch is started:
the map from lease file to interface, and one pass over the lease files that
exist already. -/
def startDhcpWatcher (interfaces : List String) (proc : Handle)
    (watchPattern confFileFmt : PathFmt) (env : WatchWorld) (fs : Files) :
    dhcpWatcher × Files :=
  let out : dhcpWatcher :=
    { proc := proc
      fileToIntf := interfaces.foldl (fun m intf => m.set (watchPattern.apply intf) intf) []
      confFileFmt := confFileFmt }
  (out, (shuffle env.startOrder out.fileToIntf).foldl
    (fun fs entry =>
      match fs.get entry.1 with
      | some _ => (out.writeConffileFromDhclient env fs entry.1).files
      | none => fs)
    fs)

/-- A world of the watcher in which no call fails. -/
def calmWatchWorld : WatchWorld :=
  { openFails := fun _ => false
    readFailsAfter := fun _ => none
    createFails := fun _ => false
    writeFailsAfter := fun _ => none
    reloadFails := fun _ => false
    startOrder := [] }

/-- A file system that holds one lease file; paths that differ in runs of
slashes only name the same file. -/
def oneFile (path content : String) : Files :=
  { resolve := cleanPath
    content := fun file => if file = cleanPath path then some content else none }

/-- The reading of a split line in the specification of `readDhcpNameservers`:
the tokens that follow the marker token. -/
def tokensAfterMarker (fields : List (List Char)) : List (List Char) :=
  (fields.dropWhile (fun f => decide (f ≠ dhcpMarker.data))).drop 1

/-- The nameserver list as the specification words it: for every line of the
file containing the marker the quote-stripped tokens after the marker, in file
order. -/
def nameserversAfterMarker (content : String) : List String :=
  (rawLines content.data).flatMap (fun line =>
    if containsChars dhcpMarker.data line then
      (tokensAfterMarker (splitOnChars isFieldSep line)).map (fun t => String.mk (trimQuotes t))
    else [])

/-! ## The daemon config as the specification words it -/

/-- The text of a list of lines, each ended by a line break. -/
def unlines (l : List String) : String := l.foldr (fun line rest => line ++ "\n" ++ rest) ""

/-- The concatenation of a list of texts. -/
def concatAll (l : List String) : String := l.foldr (fun s rest => s ++ rest) ""

/-- The fixed lookup table from service name to protocol identifier. -/
def protocolTable : List (String × String) :=
  [("dslreports", "dslreports1"), ("dyndns", "dyndns2"), ("zoneedit", "zoneedit1")]

/-- The header of the daemon config: the comment with the timestamp, the
daemon, syslog and ssl settings, the pid and cache files and the interface,
followed by two empty lines. -/
def cfgHeaderLines (date cacheFile pidFile name : String) : List String :=
  ["#", "# autogenerated by vci-service-dns on " ++ date, "#", "daemon=1m", "syslog=yes",
   "ssl=yes", "pid=" ++ pidFile, "cache=" ++ cacheFile, "use=if, if=" ++ name, "", ""]

/-- The stanza of one (service, host name) pair: the protocol, the server line
when the server field is not empty, the fixed max-interval, the login, the
password and the host name, followed by an empty line. -/
def stanzaLines (s : ServiceConfigData) (host : String) : List String :=
  if s.Server = "" then
    ["protocol=" ++ ((protocolTable.lookup s.Name).getD s.Name), "max-interval=28d",
     "login=" ++ s.Login, "password=" ++ s.Password, host, ""]
  else
    ["protocol=" ++ ((protocolTable.lookup s.Name).getD s.Name), "server=" ++ s.Server ++ ",",
     "max-interval=28d", "login=" ++ s.Login, "password=" ++ s.Password, host, ""]

/-- The (service, host name) pairs of an interface, in service order and then
host-name order. -/
def serviceHostPairs (c : InterfaceConfigData) : List (ServiceConfigData × String) :=
  c.Service.toList.flatMap (fun s => s.HostName.toList.map (fun host => (s, host)))

/-- The pieces of a text joined by a separator character. -/
def joinWith (sep : Char) : List (List Char) → List Char
  | [] => []
  | [a] => a
  | a :: b :: rest => a ++ sep :: joinWith sep (b :: rest)

/-- The marker line of a lease file that hands out the addresses `addrs`:
the marker, `=`, and the addresses in single quotes separated by spaces. -/
def markerLine (addrs : List String) : List Char :=
  dhcpMarker.data ++ Char.ofNat 61 ::
    joinWith (Char.ofNat 32) (addrs.map (fun a => Char.ofNat 39 :: a.data ++ [Char.ofNat 39]))

/-- The forwarding config as the specification words it: the two header lines
and one `server=` line per address. -/
def forwardingLines (intf : String) (addrs : List String) : List String :=
  ["### Autogenerated by vci-service-dns",
   "### Note: Manual changes to this file will be lost."]
    ++ addrs.map (fun a => "server=" ++ a ++ "\t# dhcp " ++ intf)

/-- A lease file whose first line is 65536 times the letter `x` and whose
second and last line is the marker line for the address `1.1.1.1`. -/
def longLineLease : String :=
  String.mk (List.replicate 65536 (Char.ofNat 120) ++ newlineChar :: markerLine ["1.1.1.1"])

/-- A snapshot with one interface, one service and one host name. -/
def demoSnapshot : ConfigData :=
  ⟨some [⟨"eth0", some [⟨"dyndns", "p", "u", "", some ["h.example.com"]⟩]⟩]⟩

/-- The state after `Set(demoSnapshot)` on a fresh `Config`. -/
def demoState : Config :=
  match (NewConfig []).Set (some demoSnapshot) calmWorld with
  | some r => r.config
  | none => NewConfig []

/-- The state after `Set` of a snapshot with the interfaces `eth0` and `eth0/`
on a fresh `Config`. -/
def aliasState : Config :=
  match (NewConfig []).Set (some ⟨some [⟨"eth0", none⟩, ⟨"eth0/", none⟩]⟩) calmWorld with
  | some r => r.config
  | none => NewConfig []

/-! # Lemmas and theorems -/

/-! ## Lemmas on maps and iteration order -/

namespace GoMap

theorem get?_set {α : Type} (m : GoMap α) (k k' : String) (v : α) :
    (m.set k v).get? k' = if k = k' then some v else m.get? k' := by
  induction m with
  | nil => simp [set, get?]
  | cons e rest ih =>
    obtain ⟨a, b⟩ := e
    by_cases h : a = k
    · subst h
      by_cases h' : a = k' <;> simp [set, get?, h']
    · by_cases h' : a = k'
      · subst h'
        have : ¬ k = a := fun e => h e.symm
        simp [set, get?, h, this]
      · simp [set, get?, h, h', ih]

theorem mem_set {α : Type} (m : GoMap α) (k : String) (v : α) (e : String × α)
    (he : e ∈ m.set k v) : e = (k, v) ∨ e ∈ m := by
  induction m with
  | nil => simpa [set] using he
  | cons x rest ih =>
    obtain ⟨a, b⟩ := x
    by_cases h : a = k
    · simp only [set, h, if_true, List.mem_cons] at he
      rcases he with he | he
      · exact Or.inl he
      · exact Or.inr (List.mem_cons_of_mem _ he)
    · simp only [set, h, if_false, List.mem_cons] at he
      rcases he with he | he
      · exact Or.inr (by simp [he])
      · rcases ih he with h1 | h1
        · exact Or.inl h1
        · exact Or.inr (List.mem_cons_of_mem _ h1)

theorem mem_keys_set {α : Type} (m : GoMap α) (k k' : String) (v : α) :
    k' ∈ (m.set k v).keys ↔ k' = k ∨ k' ∈ m.keys := by
  induction m with
  | nil => simp [set, keys]
  | cons x rest ih =>
    obtain ⟨a, b⟩ := x
    by_cases h : a = k
    · subst h
      simp [set, keys]
    · simp only [keys] at ih
      simp only [set, h, if_false, keys, List.map_cons, List.mem_cons, ih]
      tauto

theorem nodup_keys_set {α : Type} (m : GoMap α) (k : String) (v : α)
    (hm : m.keys.Nodup) : (m.set k v).keys.Nodup := by
  induction m with
  | nil => simp [set, keys]
  | cons x rest ih =>
    obtain ⟨a, b⟩ := x
    simp only [keys, List.map_cons, List.nodup_cons] at hm
    by_cases h : a = k
    · subst h
      simpa [set, keys] using hm
    · have hk := mem_keys_set rest k a v
      simp only [keys] at hk ih
      simp only [set, h, if_false, keys, List.map_cons, List.nodup_cons]
      refine ⟨fun hc => ?_, ih hm.2⟩
      rcases hk.1 hc with hc | hc
      · exact h hc
      · exact hm.1 hc

theorem get?_eq_none_iff {α : Type} (m : GoMap α) (k : String) :
    m.get? k = none ↔ k ∉ m.keys := by
  induction m with
  | nil => simp [get?, keys]
  | cons x rest ih =>
    obtain ⟨a, b⟩ := x
    simp only [keys] at ih
    by_cases h : a = k
    · simp [get?, keys, h]
    · have h' : ¬ k = a := fun e => h e.symm
      simp [get?, keys, h, h', ih]

theorem mem_keys_iff {α : Type} (m : GoMap α) (k : String) :
    k ∈ m.keys ↔ ∃ v, m.get? k = some v := by
  constructor
  · intro hk
    cases hg : m.get? k with
    | none => exact absurd hk ((get?_eq_none_iff m k).1 hg)
    | some v => exact ⟨v, rfl⟩
  · rintro ⟨v, hv⟩
    by_contra hk
    rw [(get?_eq_none_iff m k).2 hk] at hv
    cases hv

theorem mem_of_get? {α : Type} (m : GoMap α) (k : String) (v : α)
    (h : m.get? k = some v) : (k, v) ∈ m := by
  induction m with
  | nil => simp [get?] at h
  | cons x rest ih =>
    obtain ⟨a, b⟩ := x
    by_cases hk : a = k
    · subst hk
      simp only [get?, if_true, Option.some.injEq] at h
      simp [h]
    · simp only [get?, hk, if_false] at h
      exact List.mem_cons_of_mem _ (ih h)

theorem get?_of_mem {α : Type} (m : GoMap α) (k : String) (v : α)
    (hm : m.keys.Nodup) (h : (k, v) ∈ m) : m.get? k = some v := by
  induction m with
  | nil => simp at h
  | cons x rest ih =>
    obtain ⟨a, b⟩ := x
    simp only [keys, List.map_cons, List.nodup_cons] at hm
    simp only [List.mem_cons, Prod.mk.injEq] at h
    rcases h with ⟨h1, h2⟩ | h
    · subst h1 h2
      simp [get?]
    · have hk : k ∈ rest.map Prod.fst := List.mem_map.2 ⟨(k, v), h, rfl⟩
      have hne : ¬ a = k := fun e => hm.1 (e ▸ hk)
      simp only [get?, hne, if_false]
      exact ih hm.2 h

end GoMap

theorem insertAt_perm {β : Type} (i : Nat) (x : β) (l : List β) :
    (insertAt i x l).Perm (x :: l) := by
  unfold insertAt
  have h : (l.take i ++ x :: l.drop i).Perm (x :: (l.take i ++ l.drop i)) := List.perm_middle
  simpa [List.take_append_drop] using h

theorem shuffle_perm {β : Type} (seeds : List Nat) (l : List β) :
    (shuffle seeds l).Perm l := by
  induction l generalizing seeds with
  | nil => simp [shuffle]
  | cons x xs ih =>
    simp only [shuffle]
    exact (insertAt_perm _ x _).trans ((ih seeds.tail).cons x)

theorem mem_shuffle {β : Type} (seeds : List Nat) (l : List β) (x : β) :
    x ∈ shuffle seeds l ↔ x ∈ l :=
  (shuffle_perm seeds l).mem_iff

/-! ## Lemmas on the loops of `Set` -/

namespace Config

theorem mem_keys_indexFold (l : List InterfaceConfigData) (m : GoMap InterfaceConfigData)
    (k : String) :
    k ∈ (l.foldl (fun m intf => m.set intf.Name intf) m).keys
      ↔ k ∈ m.keys ∨ k ∈ l.map (fun i => i.Name) := by
  induction l generalizing m with
  | nil => simp
  | cons x xs ih =>
    simp only [List.foldl_cons, ih, GoMap.mem_keys_set, List.map_cons, List.mem_cons]
    tauto

theorem nodup_keys_indexFold (l : List InterfaceConfigData) (m : GoMap InterfaceConfigData)
    (hm : m.keys.Nodup) :
    (l.foldl (fun m intf => m.set intf.Name intf) m).keys.Nodup := by
  induction l generalizing m with
  | nil => simpa using hm
  | cons x xs ih => exact ih _ (GoMap.nodup_keys_set m _ _ hm)

theorem name_of_mem_indexFold (l : List InterfaceConfigData) (m : GoMap InterfaceConfigData)
    (hm : ∀ e ∈ m, e.2.Name = e.1) :
    ∀ e ∈ l.foldl (fun m intf => m.set intf.Name intf) m, e.2.Name = e.1 := by
  induction l generalizing m with
  | nil => simpa using hm
  | cons x xs ih =>
    apply ih
    intro e he
    rcases GoMap.mem_set m _ _ e he with h | h
    · rw [h]
    · exact hm e h

theorem mem_keys_indexByName (l : List InterfaceConfigData) (k : String) :
    k ∈ (indexByName l).keys ↔ k ∈ l.map (fun i => i.Name) := by
  unfold indexByName
  rw [mem_keys_indexFold]
  simp [GoMap.keys]

theorem nodup_keys_indexByName (l : List InterfaceConfigData) :
    (indexByName l).keys.Nodup :=
  nodup_keys_indexFold l [] (by simp [GoMap.keys])

theorem name_of_mem_indexByName (l : List InterfaceConfigData) :
    ∀ e ∈ indexByName l, e.2.Name = e.1 :=
  name_of_mem_indexFold l [] (by simp)

theorem get?_indexByName_eq_none (l : List InterfaceConfigData) (k : String) :
    (indexByName l).get? k = none ↔ k ∉ l.map (fun i => i.Name) := by
  rw [GoMap.get?_eq_none_iff, mem_keys_indexByName]

/-- One step of the loop of `getInactiveInterfaces`. -/
theorem inactiveFold_spec (c : Config) (new : GoMap InterfaceConfigData)
    (l : List InterfaceConfigData) (out : GoMap (Option Handle)) :
    let r := l.foldl
      (fun out intf =>
        match new.get? intf.Name with
        | some _ => out
        | none => out.set intf.Name (c.runningInterfaces.get? intf.Name)) out
    (out.keys.Nodup → r.keys.Nodup)
    ∧ (∀ e ∈ r, e ∈ out ∨ e.2 = c.runningInterfaces.get? e.1)
    ∧ (∀ k, k ∈ r.keys ↔ k ∈ out.keys ∨ (k ∈ l.map (fun i => i.Name) ∧ new.get? k = none)) := by
  induction l generalizing out with
  | nil =>
    refine ⟨fun h => by simpa using h, fun e he => Or.inl (by simpa using he), fun k => ?_⟩
    simp
  | cons x xs ih =>
    simp only [List.foldl_cons]
    cases hx : new.get? x.Name with
    | some v =>
      obtain ⟨h1, h2, h3⟩ := ih out
      refine ⟨h1, h2, fun k => ?_⟩
      rw [h3 k]
      simp only [List.map_cons, List.mem_cons]
      constructor
      · rintro (h | ⟨h, h'⟩)
        · exact Or.inl h
        · exact Or.inr ⟨Or.inr h, h'⟩
      · rintro (h | ⟨h | h, h'⟩)
        · exact Or.inl h
        · rw [h, hx] at h'
          cases h'
        · exact Or.inr ⟨h, h'⟩
    | none =>
      obtain ⟨h1, h2, h3⟩ := ih (out.set x.Name (c.runningInterfaces.get? x.Name))
      refine ⟨fun hn => h1 (GoMap.nodup_keys_set _ _ _ hn), fun e he => ?_, fun k => ?_⟩
      · rcases h2 e he with h | h
        · rcases GoMap.mem_set _ _ _ e h with h' | h'
          · right
            rw [h']
          · exact Or.inl h'
        · exact Or.inr h
      · rw [h3 k, GoMap.mem_keys_set]
        simp only [List.map_cons, List.mem_cons]
        constructor
        · rintro ((h | h) | ⟨h, h'⟩)
          · exact Or.inr ⟨Or.inl h, h ▸ hx⟩
          · exact Or.inl h
          · exact Or.inr ⟨Or.inr h, h'⟩
        · rintro (h | ⟨h | h, h'⟩)
          · exact Or.inl (Or.inr h)
          · exact Or.inl (Or.inl h)
          · exact Or.inr ⟨h, h'⟩

theorem nodup_keys_getInactive (c : Config) (new : GoMap InterfaceConfigData) :
    (c.getInactiveInterfaces new).keys.Nodup :=
  (inactiveFold_spec c new c.Get.Interface.toList []).1 (by simp [GoMap.keys])

theorem snd_of_mem_getInactive (c : Config) (new : GoMap InterfaceConfigData)
    (e : String × Option Handle) (he : e ∈ c.getInactiveInterfaces new) :
    e.2 = c.runningInterfaces.get? e.1 := by
  rcases (inactiveFold_spec c new c.Get.Interface.toList []).2.1 e he with h | h
  · simp at h
  · exact h

theorem mem_keys_getInactive (c : Config) (new : GoMap InterfaceConfigData) (k : String) :
    k ∈ (c.getInactiveInterfaces new).keys
      ↔ k ∈ c.currentConfig.Interface.toList.map (fun i => i.Name) ∧ new.get? k = none := by
  have h := (inactiveFold_spec c new c.Get.Interface.toList []).2.2 k
  simpa [GoMap.keys, Get] using h

end Config

/-! ## Lemmas on unit names and file paths -/

namespace Config

theorem append_left_cancel (p a b : String) (h : p ++ a = p ++ b) : a = b := by
  have h' := congrArg String.data h
  simp only [String.data_append, List.append_cancel_left_eq] at h'
  exact String.ext h'

theorem append_right_cancel (a b s : String) (h : a ++ s = b ++ s) : a = b := by
  have h' := congrArg String.data h
  simp only [String.data_append, List.append_cancel_right_eq] at h'
  exact String.ext h'

theorem unitOf_injective (a b : String) (h : unitOf a = unitOf b) : a = b := by
  unfold unitOf at h
  exact append_left_cancel _ _ _ (append_right_cancel _ _ _ h)

/-- The last character of a string. -/
theorem getLast?_append_lit (a s : String) (ch : Char) (hs : s.data.getLast? = some ch) :
    (a ++ s).data.getLast? = some ch := by
  simp [String.data_append, List.getLast?_append, hs]

theorem confFile_last (c : Config) (n : String) :
    (c.confFile n).data.getLast? = some (Char.ofNat 102) :=
  getLast?_append_lit _ _ _ (by decide)

theorem pidFile_last (c : Config) (n : String) :
    (c.pidFile n).data.getLast? = some (Char.ofNat 100) :=
  getLast?_append_lit _ _ _ (by decide)

theorem cacheFile_last (c : Config) (n : String) :
    (c.cacheFile n).data.getLast? = some (Char.ofNat 101) :=
  getLast?_append_lit _ _ _ (by decide)

theorem envFile_last (c : Config) (n : String) :
    (c.envFile n).data.getLast? = some (Char.ofNat 118) :=
  getLast?_append_lit _ _ _ (by decide)

theorem confFile_injective (c : Config) (a b : String) (h : c.confFile a = c.confFile b) :
    a = b := by
  unfold confFile at h
  exact append_left_cancel _ _ _ (append_right_cancel _ _ _ h)

theorem pidFile_injective (c : Config) (a b : String) (h : c.pidFile a = c.pidFile b) :
    a = b := by
  unfold pidFile at h
  exact append_left_cancel _ _ _ (append_right_cancel _ _ _ h)

theorem cacheFile_injective (c : Config) (a b : String) (h : c.cacheFile a = c.cacheFile b) :
    a = b := by
  unfold cacheFile at h
  exact append_left_cancel _ _ _ (append_right_cancel _ _ _ h)

theorem envFile_injective (c : Config) (a b : String) (h : c.envFile a = c.envFile b) :
    a = b := by
  unfold envFile PathFmt.apply at h
  exact append_left_cancel _ _ _ (append_right_cancel _ _ _
    (append_right_cancel _ _ _ (append_right_cancel _ _ _ h)))

/-- The four files of one interface are files of no other interface. -/
theorem interfaceFiles_disjoint (c : Config) (a b p : String)
    (ha : p ∈ c.interfaceFiles a) (hb : p ∈ c.interfaceFiles b) : a = b := by
  simp only [interfaceFiles, List.mem_cons, List.mem_singleton, List.not_mem_nil,
    or_false] at ha hb
  have e1 := c.confFile_last
  have e2 := c.pidFile_last
  have e3 := c.cacheFile_last
  have e4 := c.envFile_last
  have key : ∀ (x y : String) (u v : Char), x = y → x.data.getLast? = some u →
      y.data.getLast? = some v → u = v := by
    intro x y u v hxy hx hy
    rw [hxy, hy] at hx
    exact (Option.some.inj hx).symm
  rcases ha with ha | ha | ha | ha <;> rcases hb with hb | hb | hb | hb
  · exact confFile_injective c a b (ha.symm.trans hb)
  · exact absurd (key _ _ _ _ (ha.symm.trans hb) (e1 a) (e2 b)) (by decide)
  · exact absurd (key _ _ _ _ (ha.symm.trans hb) (e1 a) (e3 b)) (by decide)
  · exact absurd (key _ _ _ _ (ha.symm.trans hb) (e1 a) (e4 b)) (by decide)
  · exact absurd (key _ _ _ _ (ha.symm.trans hb) (e2 a) (e1 b)) (by decide)
  · exact pidFile_injective c a b (ha.symm.trans hb)
  · exact absurd (key _ _ _ _ (ha.symm.trans hb) (e2 a) (e3 b)) (by decide)
  · exact absurd (key _ _ _ _ (ha.symm.trans hb) (e2 a) (e4 b)) (by decide)
  · exact absurd (key _ _ _ _ (ha.symm.trans hb) (e3 a) (e1 b)) (by decide)
  · exact absurd (key _ _ _ _ (ha.symm.trans hb) (e3 a) (e2 b)) (by decide)
  · exact cacheFile_injective c a b (ha.symm.trans hb)
  · exact absurd (key _ _ _ _ (ha.symm.trans hb) (e3 a) (e4 b)) (by decide)
  · exact absurd (key _ _ _ _ (ha.symm.trans hb) (e4 a) (e1 b)) (by decide)
  · exact absurd (key _ _ _ _ (ha.symm.trans hb) (e4 a) (e2 b)) (by decide)
  · exact absurd (key _ _ _ _ (ha.symm.trans hb) (e4 a) (e3 b)) (by decide)
  · exact envFile_injective c a b (ha.symm.trans hb)

end Config

/-! ## Lemmas on the teardown of inactive interfaces -/

namespace Config

theorem mem_logIf (b : Bool) (s : String) (ev : Event) :
    ev ∈ logIf b s ↔ b = true ∧ ev = Event.log s := by
  cases b <;> simp [logIf]

theorem mem_removeFile (w : World) (n f : String) (ev : Event) :
    ev ∈ removeFile w n f
      ↔ ev = Event.remove f ∨ (w.removeFails f = true ∧ ev = Event.log ("stop-interface " ++ n)) := by
  simp [removeFile, mem_logIf]

theorem mem_stopEvents (c : Config) (w : World) (n : String) (h : Handle) (ev : Event) :
    ev ∈ c.stopEvents w n h
      ↔ ev = Event.stop h ∨ (w.stopFails h = true ∧ ev = Event.log ("stop-interface " ++ n))
        ∨ ∃ f ∈ c.interfaceFiles n, ev ∈ removeFile w n f := by
  simp only [stopEvents, List.cons_append, List.mem_cons, List.mem_append, mem_logIf,
    List.mem_flatMap]

theorem stop_mem_stopEvents (c : Config) (w : World) (n : String) (h h' : Handle) :
    Event.stop h' ∈ c.stopEvents w n h ↔ h' = h := by
  simp [mem_stopEvents, mem_removeFile]

theorem count_stop_stopEvents (c : Config) (w : World) (n : String) (h h' : Handle) :
    (c.stopEvents w n h).count (Event.stop h') = if h = h' then 1 else 0 := by
  have hz : (logIf (w.stopFails h) ("stop-interface " ++ n)
      ++ (c.interfaceFiles n).flatMap (removeFile w n)).count (Event.stop h') = 0 := by
    rw [List.count_eq_zero]
    simp [mem_logIf, mem_removeFile]
  unfold stopEvents
  rw [List.cons_append, List.count_cons, hz]
  by_cases e : h = h' <;> simp [e]

theorem remove_mem_stopEvents (c : Config) (w : World) (n : String) (h : Handle) (p : String) :
    Event.remove p ∈ c.stopEvents w n h ↔ p ∈ c.interfaceFiles n := by
  simp [mem_stopEvents, mem_removeFile]

/-- The kinds of call the teardown of an interface makes. -/
theorem kind_of_mem_stopEvents (c : Config) (w : World) (n : String) (h : Handle) (ev : Event)
    (hev : ev ∈ c.stopEvents w n h) :
    ev = Event.stop h ∨ (∃ p, ev = Event.remove p) ∨ ∃ s, ev = Event.log s := by
  rw [mem_stopEvents] at hev
  rcases hev with h1 | ⟨_, h1⟩ | ⟨f, _, h1⟩
  · exact Or.inl h1
  · exact Or.inr (Or.inr ⟨_, h1⟩)
  · rcases (mem_removeFile w n f ev).1 h1 with h2 | ⟨_, h2⟩
    · exact Or.inr (Or.inl ⟨_, h2⟩)
    · exact Or.inr (Or.inr ⟨_, h2⟩)

/-- The loop over the inactive interfaces returns when every handle is there,
and then its calls are those of the single teardowns. -/
theorem stopEach_spec (c : Config) (w : World) (l : List (String × Option Handle))
    (hl : ∀ e ∈ l, e.2 ≠ none) :
    ∃ t, stopEach c w l = some t
      ∧ (∀ h, t.count (Event.stop h) = l.countP (fun e => decide (e.2 = some h)))
      ∧ (∀ p, Event.remove p ∈ t ↔ ∃ e ∈ l, p ∈ c.interfaceFiles e.1)
      ∧ (∀ ev ∈ t, (∃ h, ev = Event.stop h) ∨ (∃ p, ev = Event.remove p)
          ∨ ∃ s, ev = Event.log s) := by
  induction l with
  | nil => exact ⟨[], rfl, by simp, by simp, by simp⟩
  | cons x xs ih =>
    obtain ⟨n, p⟩ := x
    obtain ⟨t, ht, h1, h2, h3⟩ := ih (fun e he => hl e (List.mem_cons_of_mem _ he))
    cases hp : p with
    | none => exact absurd hp (hl (n, p) (List.mem_cons_self _ _))
    | some h =>
      refine ⟨c.stopEvents w n h ++ t, by simp [stopEach, stopInterface, ht], ?_, ?_, ?_⟩
      · intro h'
        rw [List.count_append, h1 h', count_stop_stopEvents, List.countP_cons]
        by_cases e : h = h'
        · simp [e]
          omega
        · simp [e]
      · intro q
        rw [List.mem_append, remove_mem_stopEvents, h2 q]
        simp
      · intro ev hev
        rcases List.mem_append.1 hev with hev | hev
        · rcases kind_of_mem_stopEvents c w n h ev hev with h' | h' | h'
          · exact Or.inl ⟨h, h'⟩
          · exact Or.inr (Or.inl h')
          · exact Or.inr (Or.inr h')
        · exact h3 ev hev

theorem stopEach_perm_isSome (c : Config) (w : World) (l : List (String × Option Handle)) :
    (∃ t, stopEach c w l = some t) ↔ ∀ e ∈ l, e.2 ≠ none := by
  induction l with
  | nil => simp [stopEach]
  | cons x xs ih =>
    obtain ⟨n, p⟩ := x
    cases p with
    | none => simp [stopEach, stopInterface]
    | some h =>
      simp only [stopEach, stopInterface, Option.map_eq_some', List.mem_cons, forall_eq_or_imp,
        ne_eq, not_false_eq_true, true_and, reduceCtorEq]
      rw [← ih]
      constructor
      · rintro ⟨t, t', ht, _⟩
        exact ⟨t', ht⟩
      · rintro ⟨t', ht⟩
        exact ⟨_, t', ht, rfl⟩

end Config

/-! ## Lemmas on the update of active interfaces -/

namespace Config

/-- The calls of `updateInterface` neither stop a process nor remove a file. -/
theorem kind_of_mem_updateInterface (c : Config) (w : World) (i : InterfaceConfigData)
    (h : Handle) (ev : Event) (hev : ev ∈ c.updateInterface w i h) :
    (∀ h', ev ≠ Event.stop h') ∧ (∀ p, ev ≠ Event.remove p) ∧ (∀ p, ev ≠ Event.removeAll p) := by
  unfold updateInterface at hev
  simp only [] at hev
  refine ⟨fun h' e => ?_, fun p e => ?_, fun p e => ?_⟩ <;> subst e <;>
    (split at hev <;> [skip; split at hev]) <;> simp [mem_logIf] at hev

/-- The handle an iteration of `updateActiveInterfaces` stores for one entry. -/
theorem updateStep_newProcs (c : Config) (w : World) (old : GoMap InterfaceConfigData)
    (st : UpdateState) (e : String × InterfaceConfigData) :
    (updateStep c w old st e).newProcs = st.newProcs.set e.2.Name
      (match c.runningInterfaces.get? e.2.Name with
       | some p => p
       | none => ⟨unitOf e.2.Name, st.nextId⟩) := by
  unfold updateStep
  simp only []
  split <;> rfl

theorem updateStep_trace (c : Config) (w : World) (old : GoMap InterfaceConfigData)
    (st : UpdateState) (e : String × InterfaceConfigData) :
    (updateStep c w old st e).trace = st.trace ++
      (if e.2 = (old.get? e.2.Name).getD zeroInterface then []
       else c.updateInterface w e.2
        (match c.runningInterfaces.get? e.2.Name with
         | some p => p
         | none => ⟨unitOf e.2.Name, st.nextId⟩)) := by
  unfold updateStep
  simp only []
  split <;> simp

theorem updateStep_nextId (c : Config) (w : World) (old : GoMap InterfaceConfigData)
    (st : UpdateState) (e : String × InterfaceConfigData) :
    (updateStep c w old st e).nextId =
      (match c.runningInterfaces.get? e.2.Name with
       | some _ => st.nextId
       | none => st.nextId + 1) := by
  unfold updateStep
  simp only []
  split <;> rfl

theorem updateFold_keys (c : Config) (w : World) (old : GoMap InterfaceConfigData)
    (l : List (String × InterfaceConfigData)) (st : UpdateState) (n : String) :
    n ∈ (l.foldl (updateStep c w old) st).newProcs.keys
      ↔ n ∈ st.newProcs.keys ∨ n ∈ l.map (fun e => e.2.Name) := by
  induction l generalizing st with
  | nil => simp
  | cons x xs ih =>
    simp only [List.foldl_cons, ih, updateStep_newProcs, GoMap.mem_keys_set, List.map_cons,
      List.mem_cons]
    tauto

theorem updateFold_get? (c : Config) (w : World) (old : GoMap InterfaceConfigData)
    (l : List (String × InterfaceConfigData)) (st : UpdateState) (n : String) (h : Handle)
    (hg : (l.foldl (updateStep c w old) st).newProcs.get? n = some h) :
    st.newProcs.get? n = some h
      ∨ (n ∈ l.map (fun e => e.2.Name)
          ∧ (c.runningInterfaces.get? n = some h
              ∨ (c.runningInterfaces.get? n = none ∧ h.unitName = unitOf n))) := by
  induction l generalizing st with
  | nil => exact Or.inl (by simpa using hg)
  | cons x xs ih =>
    simp only [List.foldl_cons] at hg
    rcases ih _ hg with h1 | ⟨h1, h2⟩
    · rw [updateStep_newProcs, GoMap.get?_set] at h1
      by_cases hx : x.2.Name = n
      · rw [if_pos hx] at h1
        right
        refine ⟨by simp [hx], ?_⟩
        subst hx
        cases hk : c.runningInterfaces.get? x.2.Name with
        | none =>
          rw [hk] at h1
          simp only [Option.some.injEq] at h1
          right
          exact ⟨rfl, by rw [← h1]⟩
        | some p =>
          rw [hk] at h1
          left
          simpa using h1
      · rw [if_neg hx] at h1
        exact Or.inl h1
    · exact Or.inr ⟨by simp [h1], h2⟩

theorem updateFold_trace (c : Config) (w : World) (old : GoMap InterfaceConfigData)
    (l : List (String × InterfaceConfigData)) (st : UpdateState) (ev : Event)
    (hev : ev ∈ (l.foldl (updateStep c w old) st).trace) :
    ev ∈ st.trace ∨ ∃ e ∈ l, ∃ h, e.2 ≠ (old.get? e.2.Name).getD zeroInterface
      ∧ ev ∈ c.updateInterface w e.2 h := by
  induction l generalizing st with
  | nil => exact Or.inl (by simpa using hev)
  | cons x xs ih =>
    simp only [List.foldl_cons] at hev
    rcases ih _ hev with h1 | ⟨e, he, h, h2, h3⟩
    · rw [updateStep_trace, List.mem_append] at h1
      rcases h1 with h1 | h1
      · exact Or.inl h1
      · by_cases hx : x.2 = (old.get? x.2.Name).getD zeroInterface
        · rw [if_pos hx] at h1
          cases h1
        · rw [if_neg hx] at h1
          exact Or.inr ⟨x, List.mem_cons_self _ _, _, hx, h1⟩
    · exact Or.inr ⟨e, List.mem_cons_of_mem _ he, h, h2, h3⟩

/-- When every visited entry is running already and equals the previous entry
of its name, the loop makes no call, constructs no handle, and stores the
running handle of every visited name. -/
theorem updateFold_unchanged (c : Config) (w : World) (old : GoMap InterfaceConfigData)
    (l : List (String × InterfaceConfigData)) (st : UpdateState)
    (hl : ∀ e ∈ l, (∃ p, c.runningInterfaces.get? e.2.Name = some p)
      ∧ e.2 = (old.get? e.2.Name).getD zeroInterface) :
    (l.foldl (updateStep c w old) st).trace = st.trace
      ∧ (l.foldl (updateStep c w old) st).nextId = st.nextId
      ∧ ∀ n, (l.foldl (updateStep c w old) st).newProcs.get? n =
          if n ∈ l.map (fun e => e.2.Name) then c.runningInterfaces.get? n
          else st.newProcs.get? n := by
  induction l generalizing st with
  | nil => simp
  | cons x xs ih =>
    obtain ⟨⟨p, hp⟩, hx⟩ := hl x (List.mem_cons_self _ _)
    obtain ⟨h1, h2, h3⟩ := ih (updateStep c w old st x)
      (fun e he => hl e (List.mem_cons_of_mem _ he))
    simp only [List.foldl_cons]
    refine ⟨?_, ?_, fun n => ?_⟩
    · rw [h1, updateStep_trace, if_pos hx, List.append_nil]
    · rw [h2, updateStep_nextId, hp]
    · rw [h3 n, updateStep_newProcs, GoMap.get?_set, hp]
      simp only [List.map_cons, List.mem_cons]
      by_cases hn : n ∈ xs.map (fun e => e.2.Name)
      · simp [hn]
      · by_cases hxn : x.2.Name = n
        · subst hxn
          simp [hp]
        · have hxn' : ¬ n = x.2.Name := fun e => hxn e.symm
          simp [hn, hxn, hxn']

end Config

/-! ## The invariant of the reachable states -/

namespace Config

theorem names_of_entries (m : GoMap InterfaceConfigData) (hm : ∀ e ∈ m, e.2.Name = e.1) :
    m.map (fun e => e.2.Name) = m.keys := by
  unfold GoMap.keys
  exact List.map_congr_left (fun e he => hm e he)

theorem mem_names_shuffle_index (seeds : List Nat) (l : List InterfaceConfigData) (n : String) :
    n ∈ (shuffle seeds (indexByName l)).map (fun e => e.2.Name)
      ↔ n ∈ l.map (fun i => i.Name) := by
  rw [((shuffle_perm seeds (indexByName l)).map _).mem_iff,
    names_of_entries _ (name_of_mem_indexByName l), mem_keys_indexByName]

theorem inactive_ne_none (c : Config) (hc : c.Inv) (new : GoMap InterfaceConfigData) :
    ∀ e ∈ c.getInactiveInterfaces new, e.2 ≠ none := by
  intro e he hn
  have h1 := snd_of_mem_getInactive c new e he
  have h2 : e.1 ∈ (c.getInactiveInterfaces new).keys := List.mem_map.2 ⟨e, he, rfl⟩
  have h3 := ((mem_keys_getInactive c new e.1).1 h2).1
  have h4 := (hc.keys e.1).2 h3
  rw [h1] at hn
  exact (GoMap.get?_eq_none_iff _ _).1 hn h4

theorem countP_eq_one {α : Type} (l : List α) (p : α → Bool) (a : α)
    (hl : l.Nodup) (ha : a ∈ l) (hp : ∀ x ∈ l, p x = true ↔ x = a) :
    l.countP p = 1 := by
  induction l with
  | nil => simp at ha
  | cons y ys ih =>
    simp only [List.nodup_cons] at hl
    rw [List.countP_cons]
    by_cases hy : y = a
    · subst hy
      have hz : ys.countP p = 0 := by
        apply List.countP_eq_zero.2
        intro x hx hpx
        have := (hp x (List.mem_cons_of_mem _ hx)).1 hpx
        exact hl.1 (this ▸ hx)
      have hpy : p y = true := (hp y (List.mem_cons_self _ _)).2 rfl
      simp [hz, hpy]
    · have ha' : a ∈ ys := by
        rcases List.mem_cons.1 ha with h | h
        · exact absurd h.symm hy
        · exact h
      have hne : ¬ p y = true := fun e => hy ((hp y (List.mem_cons_self _ _)).1 e)
      rw [ih hl.2 ha' (fun x hx => hp x (List.mem_cons_of_mem _ hx))]
      simp [hne]

/-- From a state with the invariant the teardown loop returns; it stops the
handle of an inactive interface once and no other handle, and removes the
files of the inactive interfaces and no other file. -/
theorem stopInactive_spec (c : Config) (hc : c.Inv) (w : World)
    (new : GoMap InterfaceConfigData) :
    ∃ t, c.stopInactiveInterfaces w new = some t
      ∧ (∀ n h, n ∈ c.currentConfig.Interface.toList.map (fun i => i.Name) → new.get? n = none →
          c.runningInterfaces.get? n = some h → t.count (Event.stop h) = 1)
      ∧ (∀ h, Event.stop h ∈ t → ∃ n, n ∈ c.currentConfig.Interface.toList.map (fun i => i.Name)
          ∧ new.get? n = none ∧ c.runningInterfaces.get? n = some h)
      ∧ (∀ p, Event.remove p ∈ t ↔ ∃ n, (n ∈ c.currentConfig.Interface.toList.map (fun i => i.Name)
          ∧ new.get? n = none) ∧ p ∈ c.interfaceFiles n)
      ∧ (∀ ev ∈ t, (∃ h, ev = Event.stop h) ∨ (∃ p, ev = Event.remove p)
          ∨ ∃ s, ev = Event.log s) := by
  have hperm := shuffle_perm w.stopOrder (c.getInactiveInterfaces new)
  have hne : ∀ e ∈ shuffle w.stopOrder (c.getInactiveInterfaces new), e.2 ≠ none :=
    fun e he => inactive_ne_none c hc new e (hperm.mem_iff.1 he)
  obtain ⟨t, ht, h1, h2, h3⟩ := stopEach_spec c w _ hne
  have hcount : ∀ h, t.count (Event.stop h)
      = (c.getInactiveInterfaces new).countP (fun e => decide (e.2 = some h)) := by
    intro h
    rw [h1 h]
    exact hperm.countP_eq _
  have hval : ∀ h e, e ∈ c.getInactiveInterfaces new → e.2 = some h →
      e.1 ∈ c.currentConfig.Interface.toList.map (fun i => i.Name)
          ∧ new.get? e.1 = none ∧ c.runningInterfaces.get? e.1 = some h := by
    intro h e he hes
    have hk : e.1 ∈ (c.getInactiveInterfaces new).keys := List.mem_map.2 ⟨e, he, rfl⟩
    obtain ⟨k1, k2⟩ := (mem_keys_getInactive c new e.1).1 hk
    exact ⟨k1, k2, by rw [← snd_of_mem_getInactive c new e he, hes]⟩
  refine ⟨t, ht, ?_, ?_, ?_, h3⟩
  · intro n h hn hnew hrun
    rw [hcount h]
    have hk : n ∈ (c.getInactiveInterfaces new).keys :=
      (mem_keys_getInactive c new n).2 ⟨hn, hnew⟩
    obtain ⟨e0, he0, hen0⟩ := List.mem_map.1 hk
    refine countP_eq_one _ _ e0 (List.Nodup.of_map _ (nodup_keys_getInactive c new)) he0 ?_
    intro x hx
    have hx2 := snd_of_mem_getInactive c new x hx
    have he2 := snd_of_mem_getInactive c new e0 he0
    simp only [decide_eq_true_eq]
    constructor
    · intro hxs
      have hxr : c.runningInterfaces.get? x.1 = some h := by rw [← hx2, hxs]
      have hname : x.1 = n :=
        unitOf_injective _ _ ((hc.units x.1 h hxr).symm.trans (hc.units n h hrun))
      apply Prod.ext
      · rw [hname, hen0]
      · rw [hx2, he2, hname, hen0]
    · intro hxe
      rw [hxe, he2, hen0, hrun]
  · intro h hh
    have hpos : 0 < t.count (Event.stop h) := List.count_pos_iff.2 hh
    rw [hcount h] at hpos
    obtain ⟨e, he, hes⟩ := List.countP_pos_iff.1 hpos
    exact ⟨e.1, hval h e he (by simpa using hes)⟩
  · intro p
    rw [h2 p]
    constructor
    · rintro ⟨e, he, hp⟩
      have hk : e.1 ∈ (c.getInactiveInterfaces new).keys :=
        List.mem_map.2 ⟨e, hperm.mem_iff.1 he, rfl⟩
      exact ⟨e.1, (mem_keys_getInactive c new e.1).1 hk, hp⟩
    · rintro ⟨n, hn, hp⟩
      obtain ⟨e, he, hen⟩ := List.mem_map.1 ((mem_keys_getInactive c new n).2 hn)
      exact ⟨e, hperm.mem_iff.2 he, by rw [hen]; exact hp⟩

/-- The result of `Set` in terms of its three phases. -/
theorem Set_eq (c : Config) (new : Option ConfigData) (w : World) (t1 : List Event)
    (ht : c.stopInactiveInterfaces w (newInterfacesOf new) = some t1) :
    c.Set new w = some
      { config :=
          { c with
            runningInterfaces := (c.updateActiveInterfaces w
              (indexByName c.currentConfig.Interface.toList) (newInterfacesOf new)).newProcs
            nextId := (c.updateActiveInterfaces w
              (indexByName c.currentConfig.Interface.toList) (newInterfacesOf new)).nextId
            currentConfig := new.getD ⟨none⟩ }
        trace := t1 ++ c.ensureEnvironment w ++ (c.updateActiveInterfaces w
              (indexByName c.currentConfig.Interface.toList) (newInterfacesOf new)).trace
            ++ new.elim (c.cleanupEnvironment w) (fun _ => [])
        err := none } := by
  unfold Set
  simp only [ht, Get]
  cases new <;> simp

theorem mem_keys_newInterfacesOf (new : Option ConfigData) (n : String) :
    n ∈ (newInterfacesOf new).keys ↔ n ∈ (new.getD ⟨none⟩).Interface.toList.map (fun i => i.Name) := by
  cases new with
  | none => simp [newInterfacesOf, GoMap.keys, Slice.toList]
  | some s => simpa [newInterfacesOf] using mem_keys_indexByName s.Interface.toList n

theorem name_of_mem_newInterfacesOf (new : Option ConfigData) :
    ∀ e ∈ newInterfacesOf new, e.2.Name = e.1 := by
  cases new with
  | none => simp [newInterfacesOf]
  | some s => simpa [newInterfacesOf] using name_of_mem_indexByName s.Interface.toList

theorem mem_names_shuffle_new (seeds : List Nat) (new : Option ConfigData) (n : String) :
    n ∈ (shuffle seeds (newInterfacesOf new)).map (fun e => e.2.Name)
      ↔ n ∈ (new.getD ⟨none⟩).Interface.toList.map (fun i => i.Name) := by
  rw [((shuffle_perm seeds (newInterfacesOf new)).map _).mem_iff,
    names_of_entries _ (name_of_mem_newInterfacesOf new), mem_keys_newInterfacesOf]

/-- The running map after the update loop: its keys are the names of the new
snapshot, and every handle in it carries the unit name of its interface. -/
theorem updateActive_inv (c : Config) (hc : c.Inv) (w : World)
    (old : GoMap InterfaceConfigData) (new : Option ConfigData) :
    (∀ n, n ∈ (c.updateActiveInterfaces w old (newInterfacesOf new)).newProcs.keys
        ↔ n ∈ (new.getD ⟨none⟩).Interface.toList.map (fun i => i.Name))
    ∧ (∀ n h, (c.updateActiveInterfaces w old (newInterfacesOf new)).newProcs.get? n = some h →
        h.unitName = unitOf n) := by
  constructor
  · intro n
    unfold updateActiveInterfaces
    rw [updateFold_keys, mem_names_shuffle_new]
    simp [GoMap.keys]
  · intro n h hg
    unfold updateActiveInterfaces at hg
    rcases updateFold_get? c w old _ _ n h hg with h1 | ⟨_, h1 | ⟨_, h1⟩⟩
    · simp [GoMap.get?] at h1
    · exact hc.units n h h1
    · exact h1

theorem Set_returns (c : Config) (hc : c.Inv) (new : Option ConfigData) (w : World) :
    ∃ r, c.Set new w = some r ∧ r.config.Inv := by
  obtain ⟨t1, ht, _⟩ := stopInactive_spec c hc w (newInterfacesOf new)
  refine ⟨_, Set_eq c new w t1 ht, ?_⟩
  obtain ⟨h1, h2⟩ := updateActive_inv c hc w (indexByName c.currentConfig.Interface.toList) new
  exact ⟨h1, h2⟩

theorem optsFold_fields (opts : List ConfigOpt) (c0 : Config)
    (h0 : c0.runningInterfaces = [] ∧ c0.currentConfig = ⟨none⟩) :
    (opts.foldl (fun c opt => opt.run c) c0).runningInterfaces = []
      ∧ (opts.foldl (fun c opt => opt.run c) c0).currentConfig = ⟨none⟩ := by
  induction opts generalizing c0 with
  | nil => simpa using h0
  | cons o os ih =>
    simp only [List.foldl_cons]
    apply ih
    cases o <;> exact h0

theorem NewConfig_fields (opts : List ConfigOpt) :
    (NewConfig opts).runningInterfaces = [] ∧ (NewConfig opts).currentConfig = ⟨none⟩ :=
  optsFold_fields opts defaultConfig ⟨rfl, rfl⟩

theorem NewConfig_inv (opts : List ConfigOpt) : (NewConfig opts).Inv := by
  obtain ⟨h1, h2⟩ := NewConfig_fields opts
  constructor
  · intro n
    rw [h1, h2]
    simp [GoMap.keys, Slice.toList]
  · intro n h hg
    rw [h1] at hg
    simp [GoMap.get?] at hg

theorem NewInstanceConfig_inv (name : String) (opts : List ConfigOpt) :
    (NewInstanceConfig name opts).Inv := by
  have h := NewConfig_inv opts
  exact ⟨h.keys, h.units⟩

theorem reachable_inv (c : Config) (hr : Reachable c) : c.Inv := by
  induction hr with
  | new opts => exact NewConfig_inv opts
  | newInstance name opts => exact NewInstanceConfig_inv name opts
  | set new w r _ hset ih =>
    obtain ⟨r', hr', hinv⟩ := Set_returns _ ih new w
    rw [hset] at hr'
    cases hr'
    exact hinv

end Config

/-! ## Properties of `Set` -/

namespace Config

theorem updateFold_nodup (c : Config) (w : World) (old : GoMap InterfaceConfigData)
    (l : List (String × InterfaceConfigData)) (st : UpdateState)
    (hst : st.newProcs.keys.Nodup) :
    (l.foldl (updateStep c w old) st).newProcs.keys.Nodup := by
  induction l generalizing st with
  | nil => simpa using hst
  | cons x xs ih =>
    simp only [List.foldl_cons]
    apply ih
    rw [updateStep_newProcs]
    exact GoMap.nodup_keys_set _ _ _ hst

theorem mem_ensureEnvironment (c : Config) (w : World) (ev : Event)
    (hev : ev ∈ c.ensureEnvironment w) :
    (∃ d, ev = Event.mkdirAll d) ∨ ev = Event.log "ensure-environment" := by
  simp only [ensureEnvironment, List.mem_flatMap, List.mem_cons, mem_logIf] at hev
  obtain ⟨d, _, h | ⟨_, h⟩⟩ := hev
  · exact Or.inl ⟨d, h⟩
  · exact Or.inr h

theorem mem_cleanupEnvironment (c : Config) (w : World) (ev : Event)
    (hev : ev ∈ c.cleanupEnvironment w) :
    ev = Event.removeAll c.ddclientRunDir ∨ ev = Event.removeAll c.ddclientCacheDir
      ∨ ev = Event.log "cleanup" := by
  simp only [cleanupEnvironment, List.mem_flatMap, List.mem_cons, mem_logIf, List.mem_singleton,
    List.not_mem_nil, or_false] at hev
  obtain ⟨d, hd | hd, h | ⟨_, h⟩⟩ := hev
  · exact Or.inl (hd ▸ h)
  · exact Or.inr (Or.inr h)
  · exact Or.inr (Or.inl (hd ▸ h))
  · exact Or.inr (Or.inr h)

/-- A stop or a removal in the trace of `Set` is a call of the teardown loop. -/
theorem teardown_of_mem_trace (c : Config) (new : Option ConfigData) (w : World)
    (t1 : List Event) (ev : Event)
    (hk : (∃ h, ev = Event.stop h) ∨ ∃ p, ev = Event.remove p)
    (hev : ev ∈ t1 ++ c.ensureEnvironment w ++ (c.updateActiveInterfaces w
              (indexByName c.currentConfig.Interface.toList) (newInterfacesOf new)).trace
            ++ new.elim (c.cleanupEnvironment w) (fun _ => [])) :
    ev ∈ t1 := by
  simp only [List.mem_append] at hev
  rcases hev with ((h | h) | h) | h
  · exact h
  · exfalso
    rcases mem_ensureEnvironment c w ev h with ⟨d, hd⟩ | hd <;>
      rcases hk with ⟨x, hx⟩ | ⟨x, hx⟩ <;> rw [hx] at hd <;> cases hd
  · exfalso
    unfold updateActiveInterfaces at h
    rcases updateFold_trace c w _ _ _ ev h with h' | ⟨e, _, p, _, h'⟩
    · simp at h'
    · obtain ⟨k1, k2, _⟩ := kind_of_mem_updateInterface c w e.2 p ev h'
      rcases hk with ⟨x, hx⟩ | ⟨x, hx⟩
      · exact k1 x hx
      · exact k2 x hx
  · exfalso
    cases new with
    | some s => simp at h
    | none =>
      simp only [Option.elim] at h
      rcases mem_cleanupEnvironment c w ev h with hd | hd | hd <;>
        rcases hk with ⟨x, hx⟩ | ⟨x, hx⟩ <;> rw [hx] at hd <;> cases hd

theorem count_stop_trace (c : Config) (new : Option ConfigData) (w : World)
    (t1 : List Event) (h : Handle) :
    (t1 ++ c.ensureEnvironment w ++ (c.updateActiveInterfaces w
              (indexByName c.currentConfig.Interface.toList) (newInterfacesOf new)).trace
            ++ new.elim (c.cleanupEnvironment w) (fun _ => [])).count (Event.stop h)
      = t1.count (Event.stop h) := by
  have hz : ([] ++ c.ensureEnvironment w ++ (c.updateActiveInterfaces w
              (indexByName c.currentConfig.Interface.toList) (newInterfacesOf new)).trace
            ++ new.elim (c.cleanupEnvironment w) (fun _ => [])).count (Event.stop h) = 0 := by
    apply List.count_eq_zero.2
    intro hm
    have := teardown_of_mem_trace c new w [] (Event.stop h) (Or.inl ⟨h, rfl⟩) hm
    simp at this
  simp only [List.nil_append, List.count_append] at hz
  simp only [List.count_append]
  omega

end Config

theorem demoState_reachable : Reachable demoState := by
  unfold demoState
  cases h : (NewConfig []).Set (some demoSnapshot) calmWorld with
  | none => exact Reachable.new []
  | some r => exact Reachable.set _ _ r (Reachable.new []) h

/-- C3: after `Set(new)` with a non-nil snapshot returns, the keys of the
running-interfaces map are exactly the interface names occurring in
`new.Interface`: the map has one entry per key, every name of `new` has a
handle and no other name has one, also when `new` repeats a name. -/
theorem Set_running_keys_eq_new_names (c : Config) (hc : Reachable c) (new : ConfigData)
    (w : World) :
    ∃ r, c.Set (some new) w = some r
      ∧ r.config.runningInterfaces.keys.Nodup
      ∧ (∀ n, n ∈ r.config.runningInterfaces.keys ↔ n ∈ new.Interface.toList.map (fun i => i.Name))
      ∧ (∀ n, (∃ h, r.config.runningInterfaces.get? n = some h)
          ↔ n ∈ new.Interface.toList.map (fun i => i.Name)) := by
  have hinv := Config.reachable_inv c hc
  obtain ⟨t1, ht, _⟩ := Config.stopInactive_spec c hinv w (Config.newInterfacesOf (some new))
  have hkeys := (Config.updateActive_inv c hinv w
    (Config.indexByName c.currentConfig.Interface.toList) (some new)).1
  refine ⟨_, Config.Set_eq c (some new) w t1 ht, ?_, ?_, ?_⟩
  · exact Config.updateFold_nodup c w _ _ _ (by simp [GoMap.keys])
  · exact hkeys
  · intro n
    rw [← GoMap.mem_keys_iff]
    exact hkeys n

theorem Set_running_keys_eq_new_names_witness :
    Reachable demoState ∧
    ∃ r, demoState.Set (some ⟨some [⟨"eth1", none⟩, ⟨"eth2", none⟩, ⟨"eth1", none⟩]⟩) calmWorld = some r
      ∧ r.config.runningInterfaces.keys.Nodup
      ∧ (∀ n, n ∈ r.config.runningInterfaces.keys
          ↔ n ∈ (["eth1", "eth2", "eth1"] : List String))
      ∧ (∀ n, (∃ h, r.config.runningInterfaces.get? n = some h)
          ↔ n ∈ (["eth1", "eth2", "eth1"] : List String)) :=
  ⟨demoState_reachable,
    Set_running_keys_eq_new_names demoState demoState_reachable
      ⟨some [⟨"eth1", none⟩, ⟨"eth2", none⟩, ⟨"eth1", none⟩]⟩ calmWorld⟩

/-- C10: in every state reachable from `NewConfig` by calls of `Set`, the keys
of the running-interfaces map are the interface names of the stored snapshot;
so every interface `getInactiveInterfaces` selects has its handle of the map,
the teardown loop never meets a nil handle, and `Set` returns. -/
theorem reachable_running_keys_eq_snapshot_names (c : Config) (hc : Reachable c) :
    (∀ n, n ∈ c.runningInterfaces.keys ↔ n ∈ c.Get.Interface.toList.map (fun i => i.Name))
      ∧ (∀ (new : Option ConfigData) (e : String × Option Handle),
          e ∈ c.getInactiveInterfaces (Config.newInterfacesOf new) →
            ∃ h, e.2 = some h ∧ c.runningInterfaces.get? e.1 = some h)
      ∧ (∀ (new : Option ConfigData) (w : World) (e : String × Option Handle),
          e ∈ shuffle w.stopOrder (c.getInactiveInterfaces (Config.newInterfacesOf new)) →
            c.stopInterface w e.1 e.2 ≠ none)
      ∧ (∀ (new : Option ConfigData) (w : World), ∃ r, c.Set new w = some r) := by
  have hinv := Config.reachable_inv c hc
  have hsel : ∀ (new : Option ConfigData) (e : String × Option Handle),
      e ∈ c.getInactiveInterfaces (Config.newInterfacesOf new) →
        ∃ h, e.2 = some h ∧ c.runningInterfaces.get? e.1 = some h := by
    intro new e he
    have h1 := Config.inactive_ne_none c hinv _ e he
    have h2 := Config.snd_of_mem_getInactive c _ e he
    cases h3 : e.2 with
    | none => exact absurd h3 h1
    | some h => exact ⟨h, rfl, by rw [← h2, h3]⟩
  refine ⟨hinv.keys, hsel, ?_, ?_⟩
  · intro new w e he
    obtain ⟨h, h1, _⟩ := hsel new e ((mem_shuffle _ _ e).1 he)
    rw [h1]
    simp [Config.stopInterface]
  · intro new w
    obtain ⟨r, hr, _⟩ := Config.Set_returns c hinv new w
    exact ⟨r, hr⟩

theorem reachable_running_keys_eq_snapshot_names_witness :
    Reachable demoState ∧
    ((∀ n, n ∈ demoState.runningInterfaces.keys
        ↔ n ∈ demoState.Get.Interface.toList.map (fun i => i.Name))
      ∧ (∀ (new : Option ConfigData) (e : String × Option Handle),
          e ∈ demoState.getInactiveInterfaces (Config.newInterfacesOf new) →
            ∃ h, e.2 = some h ∧ demoState.runningInterfaces.get? e.1 = some h)
      ∧ (∀ (new : Option ConfigData) (w : World) (e : String × Option Handle),
          e ∈ shuffle w.stopOrder (demoState.getInactiveInterfaces (Config.newInterfacesOf new)) →
            demoState.stopInterface w e.1 e.2 ≠ none)
      ∧ (∀ (new : Option ConfigData) (w : World), ∃ r, demoState.Set new w = some r)) :=
  ⟨demoState_reachable, reachable_running_keys_eq_snapshot_names demoState demoState_reachable⟩

/-- C1: calling `Set(s)` and then `Set(s')` with `s'` equal to `s` by value
makes, during the second call, no call of `updateInterface` (no file is opened
or written, no handle reloaded), no Stop and no removal: its only calls are
those of `ensureEnvironment`; no handle is constructed, and the running map
afterwards holds for each interface name the very handle it held after the
first call. -/
theorem Set_same_snapshot_twice (c : Config) (hc : Reachable c) (s s' : ConfigData)
    (hs : s' = s) (w1 w2 : World) :
    ∃ r1 r2, c.Set (some s) w1 = some r1 ∧ r1.config.Set (some s') w2 = some r2
      ∧ r2.trace = r1.config.ensureEnvironment w2
      ∧ (∀ ev ∈ r2.trace, (∃ d, ev = Event.mkdirAll d) ∨ ev = Event.log "ensure-environment")
      ∧ r2.config.nextId = r1.config.nextId
      ∧ ∀ n, r2.config.runningInterfaces.get? n = r1.config.runningInterfaces.get? n := by
  subst hs
  have hinv := Config.reachable_inv c hc
  obtain ⟨r1, hr1, hinv1⟩ := Config.Set_returns c hinv (some s') w1
  have hcur : r1.config.currentConfig = s' := by
    obtain ⟨t1, ht, _⟩ := Config.stopInactive_spec c hinv w1 (Config.newInterfacesOf (some s'))
    rw [Config.Set_eq c (some s') w1 t1 ht] at hr1
    cases hr1
    rfl
  -- the second call: nothing is inactive
  have hnone : r1.config.getInactiveInterfaces (Config.indexByName s'.Interface.toList) = [] := by
    apply List.eq_nil_iff_forall_not_mem.2
    intro e he
    have hk : e.1 ∈ (r1.config.getInactiveInterfaces (Config.indexByName s'.Interface.toList)).keys :=
      List.mem_map.2 ⟨e, he, rfl⟩
    obtain ⟨k1, k2⟩ := (Config.mem_keys_getInactive _ _ _).1 hk
    rw [hcur] at k1
    exact (Config.get?_indexByName_eq_none _ _).1 k2 k1
  have hstop : r1.config.stopInactiveInterfaces w2 (Config.newInterfacesOf (some s')) = some [] := by
    simp [Config.stopInactiveInterfaces, Config.newInterfacesOf, hnone, shuffle, Config.stopEach]
  have hset := Config.Set_eq r1.config (some s') w2 [] hstop
  -- the second call: every interface is running and unchanged
  have hunch := Config.updateFold_unchanged r1.config w2
    (Config.indexByName r1.config.currentConfig.Interface.toList)
    (shuffle w2.updateOrder (Config.newInterfacesOf (some s'))) ⟨[], r1.config.nextId, []⟩
    (by
      intro e he
      have he' : e ∈ Config.indexByName s'.Interface.toList := (mem_shuffle _ _ e).1 he
      have hname := Config.name_of_mem_indexByName s'.Interface.toList e he'
      have hkey : e.1 ∈ (Config.indexByName s'.Interface.toList).keys := List.mem_map.2 ⟨e, he', rfl⟩
      have hin := (Config.mem_keys_indexByName s'.Interface.toList e.1).1 hkey
      constructor
      · rw [hname]
        apply (GoMap.mem_keys_iff _ _).1
        rw [hinv1.keys, hcur]
        exact hin
      · rw [hcur, hname,
          GoMap.get?_of_mem _ e.1 e.2 (Config.nodup_keys_indexByName s'.Interface.toList) he']
        rfl)
  obtain ⟨u1, u2, u3⟩ := hunch
  refine ⟨r1, _, hr1, hset, ?_, ?_, ?_, ?_⟩
  · simp only [Config.updateActiveInterfaces, u1]
    simp
  · intro ev hev
    simp only [Config.updateActiveInterfaces, u1] at hev
    simp only [List.nil_append, List.append_nil, Option.elim] at hev
    exact Config.mem_ensureEnvironment _ _ ev hev
  · simp only [Config.updateActiveInterfaces, u2]
  · intro n
    simp only [Config.updateActiveInterfaces, u3 n]
    have hiff := Config.mem_names_shuffle_new w2.updateOrder (some s') n
    by_cases hn : n ∈ List.map (fun e => e.2.Name)
        (shuffle w2.updateOrder (Config.newInterfacesOf (some s')))
    · rw [if_pos hn]
    · rw [if_neg hn]
      have : n ∉ r1.config.runningInterfaces.keys := by
        rw [hinv1.keys, hcur]
        exact fun h => hn (hiff.2 h)
      rw [(GoMap.get?_eq_none_iff _ _).2 this]
      rfl

theorem Set_same_snapshot_twice_witness :
    Reachable demoState ∧ demoSnapshot = demoSnapshot ∧
    ∃ r1 r2, demoState.Set (some demoSnapshot) calmWorld = some r1
      ∧ r1.config.Set (some demoSnapshot) calmWorld = some r2
      ∧ r2.trace = r1.config.ensureEnvironment calmWorld
      ∧ (∀ ev ∈ r2.trace, (∃ d, ev = Event.mkdirAll d) ∨ ev = Event.log "ensure-environment")
      ∧ r2.config.nextId = r1.config.nextId
      ∧ ∀ n, r2.config.runningInterfaces.get? n = r1.config.runningInterfaces.get? n :=
  ⟨demoState_reachable, rfl,
    Set_same_snapshot_twice demoState demoState_reachable demoSnapshot demoSnapshot rfl
      calmWorld calmWorld⟩

/-- C4, as amended: for every interface name of the previous snapshot that is
absent from the new one (the nil snapshot included), `Set` calls Stop on the
handle of that interface exactly once and attempts the removal of its four
files, whichever of these calls fail; it calls Stop on no handle of an
interface of the new snapshot; and the paths it calls Remove with are exactly
the four path strings of the interfaces that are torn down, none of which is
one of the four path strings of an interface of the new snapshot. -/
theorem Set_tears_down_removed_interfaces (c : Config) (hc : Reachable c)
    (new : Option ConfigData) (w : World) :
    ∃ r, c.Set new w = some r
      ∧ (∀ n, n ∈ c.Get.Interface.toList.map (fun i => i.Name) →
            n ∉ (new.getD ⟨none⟩).Interface.toList.map (fun i => i.Name) →
          ∃ h, c.runningInterfaces.get? n = some h
            ∧ r.trace.count (Event.stop h) = 1
            ∧ Event.remove (c.ddclientConfigDir ++ "/" ++ "ddclient_" ++ n ++ ".conf") ∈ r.trace
            ∧ Event.remove (c.ddclientRunDir ++ "/" ++ "ddclient_" ++ n ++ ".pid") ∈ r.trace
            ∧ Event.remove (c.ddclientCacheDir ++ "/" ++ "ddclient_" ++ n ++ ".cache") ∈ r.trace
            ∧ Event.remove (c.ddclientEnvDirFmt.apply n ++ "/" ++ "ddclient.env") ∈ r.trace)
      ∧ (∀ n, n ∈ (new.getD ⟨none⟩).Interface.toList.map (fun i => i.Name) →
          (∀ h, c.runningInterfaces.get? n = some h ∨ r.config.runningInterfaces.get? n = some h →
            Event.stop h ∉ r.trace)
          ∧ ∀ f ∈ c.interfaceFiles n, Event.remove f ∉ r.trace)
      ∧ (∀ p, Event.remove p ∈ r.trace ↔
          ∃ n, n ∈ c.Get.Interface.toList.map (fun i => i.Name)
            ∧ n ∉ (new.getD ⟨none⟩).Interface.toList.map (fun i => i.Name)
            ∧ p ∈ [c.confFile n, c.pidFile n, c.cacheFile n, c.envFile n]) := by
  have hinv := Config.reachable_inv c hc
  obtain ⟨t1, ht, s1, s2, s3, _⟩ := Config.stopInactive_spec c hinv w (Config.newInterfacesOf new)
  have hnot : ∀ n, (Config.newInterfacesOf new).get? n = none
      ↔ n ∉ (new.getD ⟨none⟩).Interface.toList.map (fun i => i.Name) := by
    intro n
    rw [GoMap.get?_eq_none_iff, Config.mem_keys_newInterfacesOf]
  obtain ⟨_, hunits⟩ := Config.updateActive_inv c hinv w
    (Config.indexByName c.currentConfig.Interface.toList) new
  refine ⟨_, Config.Set_eq c new w t1 ht, ?_, ?_, ?_⟩
  · intro n hn hnew
    obtain ⟨h, hh⟩ := (GoMap.mem_keys_iff _ _).1 ((hinv.keys n).2 hn)
    have hrem : ∀ f ∈ c.interfaceFiles n, Event.remove f ∈ t1 :=
      fun f hf => (s3 f).2 ⟨n, ⟨hn, (hnot n).2 hnew⟩, hf⟩
    refine ⟨h, hh, ?_, ?_, ?_, ?_, ?_⟩
    · simp only []
      rw [Config.count_stop_trace]
      exact s1 n h hn ((hnot n).2 hnew) hh
    all_goals
      simp only [List.mem_append]
      refine Or.inl (Or.inl (Or.inl (hrem _ ?_)))
      simp [Config.interfaceFiles, Config.confFile, Config.pidFile, Config.cacheFile,
        Config.envFile]
  · intro n hn
    constructor
    · intro h hh hmem
      have hmem1 := Config.teardown_of_mem_trace c new w t1 _ (Or.inl ⟨h, rfl⟩) hmem
      obtain ⟨k, _, k2, k3⟩ := s2 h hmem1
      have hu : h.unitName = Config.unitOf n := by
        rcases hh with hh | hh
        · exact hinv.units n h hh
        · exact hunits n h hh
      have hkn : k = n := Config.unitOf_injective _ _ ((hinv.units k h k3).symm.trans hu)
      rw [hkn] at k2
      exact (hnot n).1 k2 hn
    · intro f hf hmem
      have hmem1 := Config.teardown_of_mem_trace c new w t1 _ (Or.inr ⟨f, rfl⟩) hmem
      obtain ⟨k, ⟨_, k2⟩, k3⟩ := (s3 f).1 hmem1
      have hkn : k = n := Config.interfaceFiles_disjoint c k n f k3 hf
      rw [hkn] at k2
      exact (hnot n).1 k2 hn
  · intro p
    constructor
    · intro hmem
      have hmem1 := Config.teardown_of_mem_trace c new w t1 _ (Or.inr ⟨p, rfl⟩) hmem
      obtain ⟨k, ⟨k1, k2⟩, k3⟩ := (s3 p).1 hmem1
      exact ⟨k, k1, (hnot k).1 k2, k3⟩
    · rintro ⟨k, k1, k2, k3⟩
      have hmem1 : Event.remove p ∈ t1 := (s3 p).2 ⟨k, ⟨k1, (hnot k).2 k2⟩, k3⟩
      simp only [List.mem_append]
      exact Or.inl (Or.inl (Or.inl hmem1))

theorem Set_tears_down_removed_interfaces_witness :
    Reachable demoState ∧
    ∃ r, demoState.Set (some ⟨some [⟨"eth1", none⟩]⟩) calmWorld = some r
      ∧ (∀ n, n ∈ demoState.Get.Interface.toList.map (fun i => i.Name) →
            n ∉ ((some (⟨some [⟨"eth1", none⟩]⟩ : ConfigData)).getD ⟨none⟩).Interface.toList.map
              (fun i => i.Name) →
          ∃ h, demoState.runningInterfaces.get? n = some h
            ∧ r.trace.count (Event.stop h) = 1
            ∧ Event.remove (demoState.ddclientConfigDir ++ "/" ++ "ddclient_" ++ n ++ ".conf")
                ∈ r.trace
            ∧ Event.remove (demoState.ddclientRunDir ++ "/" ++ "ddclient_" ++ n ++ ".pid")
                ∈ r.trace
            ∧ Event.remove (demoState.ddclientCacheDir ++ "/" ++ "ddclient_" ++ n ++ ".cache")
                ∈ r.trace
            ∧ Event.remove (demoState.ddclientEnvDirFmt.apply n ++ "/" ++ "ddclient.env")
                ∈ r.trace)
      ∧ (∀ n, n ∈ ((some (⟨some [⟨"eth1", none⟩]⟩ : ConfigData)).getD ⟨none⟩).Interface.toList.map
              (fun i => i.Name) →
          (∀ h, demoState.runningInterfaces.get? n = some h
              ∨ r.config.runningInterfaces.get? n = some h →
            Event.stop h ∉ r.trace)
          ∧ ∀ f ∈ demoState.interfaceFiles n, Event.remove f ∉ r.trace)
      ∧ (∀ p, Event.remove p ∈ r.trace ↔
          ∃ n, n ∈ demoState.Get.Interface.toList.map (fun i => i.Name)
            ∧ n ∉ ((some (⟨some [⟨"eth1", none⟩]⟩ : ConfigData)).getD
                ⟨none⟩).Interface.toList.map (fun i => i.Name)
            ∧ p ∈ [demoState.confFile n, demoState.pidFile n, demoState.cacheFile n,
                demoState.envFile n]) :=
  ⟨demoState_reachable,
    Set_tears_down_removed_interfaces demoState demoState_reachable
      (some ⟨some [⟨"eth1", none⟩]⟩) calmWorld⟩

theorem aliasState_reachable : Reachable aliasState := by
  unfold aliasState
  cases h : (NewConfig []).Set (some ⟨some [⟨"eth0", none⟩, ⟨"eth0/", none⟩]⟩) calmWorld with
  | none => exact Reachable.new []
  | some r => exact Reachable.set _ _ r (Reachable.new []) h

/-- C4, as stated, fails: in the state reached by `Set` of the interfaces
`eth0` and `eth0/`, `Set` of the snapshot that keeps `eth0` alone tears down
`eth0/` and calls Remove with `/run/dns/eth0//ddclient.env`; that path names
the environment file `/run/dns/eth0/ddclient.env` of `eth0`, an interface of
the new snapshot, whose file is thereby removed. -/
theorem Set_removes_env_file_of_kept_interface :
    Reachable aliasState
      ∧ aliasState.Get.Interface.toList.map (fun i => i.Name) = ["eth0", "eth0/"]
      ∧ aliasState.envFile "eth0" = "/run/dns/eth0/ddclient.env"
      ∧ "/run/dns/eth0//ddclient.env" ≠ aliasState.envFile "eth0"
      ∧ cleanPath "/run/dns/eth0//ddclient.env" = aliasState.envFile "eth0"
      ∧ (aliasState.Set (some ⟨some [⟨"eth0", none⟩]⟩) calmWorld).map
          (fun r => decide (Event.remove "/run/dns/eth0//ddclient.env" ∈ r.trace)) = some true :=
  ⟨aliasState_reachable, by decide, by decide, by decide, by decide, by decide⟩

/-- C5: `Set(nil)` returns the nil error; its calls are the teardown of every
interface of the previous snapshot (one Stop on the handle and the removal of
the four files of each), then those of `ensureEnvironment`, then the removal of
the run directory tree and of the cache directory tree; afterwards `Get`
returns a snapshot with an empty interface list and the running map is empty. -/
theorem Set_nil_full_teardown (c : Config) (hc : Reachable c) (w : World) :
    ∃ r tStop, c.Set none w = some r
      ∧ r.err = none
      ∧ r.trace = tStop ++ c.ensureEnvironment w ++ c.cleanupEnvironment w
      ∧ (∀ n, n ∈ c.Get.Interface.toList.map (fun i => i.Name) →
          ∃ h, c.runningInterfaces.get? n = some h
            ∧ tStop.count (Event.stop h) = 1
            ∧ Event.remove (c.confFile n) ∈ tStop
            ∧ Event.remove (c.pidFile n) ∈ tStop
            ∧ Event.remove (c.cacheFile n) ∈ tStop
            ∧ Event.remove (c.envFile n) ∈ tStop)
      ∧ (∀ ev ∈ c.ensureEnvironment w,
          (∃ d, ev = Event.mkdirAll d) ∨ ev = Event.log "ensure-environment")
      ∧ (c.cleanupEnvironment w).filter (fun ev => decide (ev ≠ Event.log "cleanup"))
          = [Event.removeAll c.ddclientRunDir, Event.removeAll c.ddclientCacheDir]
      ∧ r.config.Get = ⟨none⟩
      ∧ r.config.Get.Interface.toList = []
      ∧ r.config.runningInterfaces = [] := by
  have hinv := Config.reachable_inv c hc
  obtain ⟨t1, ht, s1, _, s3, _⟩ := Config.stopInactive_spec c hinv w (Config.newInterfacesOf none)
  refine ⟨_, t1, Config.Set_eq c none w t1 ht, rfl, ?_, ?_, ?_, ?_, rfl, rfl, ?_⟩
  · simp [Config.updateActiveInterfaces, Config.newInterfacesOf, shuffle]
  · intro n hn
    obtain ⟨h, hh⟩ := (GoMap.mem_keys_iff _ _).1 ((hinv.keys n).2 hn)
    have hnew : (Config.newInterfacesOf none).get? n = none := rfl
    have hrem : ∀ f ∈ c.interfaceFiles n, Event.remove f ∈ t1 :=
      fun f hf => (s3 f).2 ⟨n, ⟨hn, hnew⟩, hf⟩
    refine ⟨h, hh, s1 n h hn hnew hh, ?_, ?_, ?_, ?_⟩ <;>
      exact hrem _ (by simp [Config.interfaceFiles])
  · exact fun ev hev => Config.mem_ensureEnvironment c w ev hev
  · cases h1 : w.removeAllFails c.ddclientRunDir <;>
      cases h2 : w.removeAllFails c.ddclientCacheDir <;>
      simp [Config.cleanupEnvironment, Config.logIf, h1, h2]
  · simp [Config.updateActiveInterfaces, Config.newInterfacesOf, shuffle]

theorem Set_nil_full_teardown_witness :
    Reachable demoState ∧
    ∃ r tStop, demoState.Set none calmWorld = some r
      ∧ r.err = none
      ∧ r.trace = tStop ++ demoState.ensureEnvironment calmWorld
          ++ demoState.cleanupEnvironment calmWorld
      ∧ (∀ n, n ∈ demoState.Get.Interface.toList.map (fun i => i.Name) →
          ∃ h, demoState.runningInterfaces.get? n = some h
            ∧ tStop.count (Event.stop h) = 1
            ∧ Event.remove (demoState.confFile n) ∈ tStop
            ∧ Event.remove (demoState.pidFile n) ∈ tStop
            ∧ Event.remove (demoState.cacheFile n) ∈ tStop
            ∧ Event.remove (demoState.envFile n) ∈ tStop)
      ∧ (∀ ev ∈ demoState.ensureEnvironment calmWorld,
          (∃ d, ev = Event.mkdirAll d) ∨ ev = Event.log "ensure-environment")
      ∧ (demoState.cleanupEnvironment calmWorld).filter
            (fun ev => decide (ev ≠ Event.log "cleanup"))
          = [Event.removeAll demoState.ddclientRunDir,
             Event.removeAll demoState.ddclientCacheDir]
      ∧ r.config.Get = ⟨none⟩
      ∧ r.config.Get.Interface.toList = []
      ∧ r.config.runningInterfaces = [] :=
  ⟨demoState_reachable, Set_nil_full_teardown demoState demoState_reachable calmWorld⟩

/-- C2, at the failing input: on a fresh `Config` (empty previous snapshot),
`Set` of a snapshot whose single interface has the empty name and no service
constructs the handle of that interface but opens no file, writes no file and
reloads no handle, although the name is absent from the previous snapshot: the
entry equals the zero value that indexing the previous map at a missing key
returns. -/
theorem Set_skips_new_zero_value_interface :
    ("" ∉ (NewConfig []).Get.Interface.toList.map (fun i => i.Name))
      ∧ (Config.indexByName [(⟨"", none⟩ : InterfaceConfigData)]).get? "" = some ⟨"", none⟩
      ∧ ∃ r, (NewConfig []).Set (some ⟨some [⟨"", none⟩]⟩) calmWorld = some r
        ∧ r.config.runningInterfaces = [("", ⟨"ddclient@.service", 0⟩)]
        ∧ r.trace = [Event.mkdirAll "/etc/ddclient", Event.mkdirAll "/var/run/ddclient",
            Event.mkdirAll "/var/cache/ddclient"]
        ∧ (∀ p, Event.openFile p ∉ r.trace)
        ∧ (∀ p t, Event.write p t ∉ r.trace)
        ∧ (∀ h, Event.reload h ∉ r.trace) := by
  refine ⟨by decide, by decide,
    ⟨{ currentConfig := ⟨some [⟨"", none⟩]⟩, runningInterfaces := [("", ⟨"ddclient@.service", 0⟩)],
       instanceName := "default", ddclientRunDir := "/var/run/ddclient",
       ddclientCacheDir := "/var/cache/ddclient", ddclientConfigDir := "/etc/ddclient",
       ddclientEnvDirFmt := ⟨"/run/dns/", ""⟩, nextId := 1 },
     [Event.mkdirAll "/etc/ddclient", Event.mkdirAll "/var/run/ddclient",
      Event.mkdirAll "/var/cache/ddclient"], none⟩, rfl, rfl, rfl, ?_, ?_, ?_⟩
  · intro p hp
    simp at hp
  · intro p t hp
    simp at hp
  · intro h hp
    simp at hp

/-! ## The update of new and changed interfaces -/

namespace Config

/-- When the files can be opened, `updateInterface` writes both files and
reloads the handle once. -/
theorem updateInterface_of_open (c : Config) (w : World) (i : InterfaceConfigData) (h : Handle)
    (hopen : ∀ p, w.openFails p = false) :
    Event.write (c.confFile i.Name) (writeConfig w.date (c.cacheFile i.Name) (c.pidFile i.Name) i)
        ∈ c.updateInterface w i h
      ∧ Event.write (c.envFile i.Name) (writeEnvFile c.instanceName (c.confFile i.Name))
        ∈ c.updateInterface w i h
      ∧ ∀ h', (c.updateInterface w i h).count (Event.reload h') = if h = h' then 1 else 0 := by
  unfold updateInterface
  simp only [hopen, Bool.false_eq_true, if_false]
  refine ⟨by simp, by simp, fun h' => ?_⟩
  cases w.writeFails (c.confFile i.Name) <;> cases w.writeFails (c.envFile i.Name) <;>
    cases w.reloadFails h <;> by_cases e : h = h' <;> simp [logIf, List.count_cons, e]

theorem updateFold_trace_mono (c : Config) (w : World) (old : GoMap InterfaceConfigData)
    (l : List (String × InterfaceConfigData)) (st : UpdateState) (ev : Event)
    (hev : ev ∈ st.trace) : ev ∈ (l.foldl (updateStep c w old) st).trace := by
  induction l generalizing st with
  | nil => simpa using hev
  | cons x xs ih =>
    simp only [List.foldl_cons]
    apply ih
    rw [updateStep_trace]
    exact List.mem_append_left _ hev

theorem updateFold_get?_of_not_mem (c : Config) (w : World) (old : GoMap InterfaceConfigData)
    (l : List (String × InterfaceConfigData)) (st : UpdateState) (n : String)
    (hn : n ∉ l.map (fun e => e.2.Name)) :
    (l.foldl (updateStep c w old) st).newProcs.get? n = st.newProcs.get? n := by
  induction l generalizing st with
  | nil => simp
  | cons x xs ih =>
    simp only [List.map_cons, List.mem_cons, not_or] at hn
    simp only [List.foldl_cons]
    rw [ih _ hn.2, updateStep_newProcs, GoMap.get?_set, if_neg (fun e => hn.1 e.symm)]

/-- The handle an iteration uses carries the unit name of its interface. -/
theorem stepHandle_unit (c : Config) (hc : c.Inv) (n : String) (k : Nat) :
    (match c.runningInterfaces.get? n with
     | some p => p
     | none => (⟨unitOf n, k⟩ : Handle)).unitName = unitOf n := by
  cases h : c.runningInterfaces.get? n with
  | none => rfl
  | some p => exact hc.units n p h

theorem updateFold_changed (c : Config) (w : World)
    (old : GoMap InterfaceConfigData) (hopen : ∀ p, w.openFails p = false)
    (l : List (String × InterfaceConfigData)) (st : UpdateState)
    (hl : (l.map (fun e => e.2.Name)).Nodup)
    (e : String × InterfaceConfigData) (he : e ∈ l)
    (hchg : e.2 ≠ (old.get? e.2.Name).getD zeroInterface) :
    ∃ h, (l.foldl (updateStep c w old) st).newProcs.get? e.2.Name = some h
      ∧ Event.write (c.confFile e.2.Name)
          (writeConfig w.date (c.cacheFile e.2.Name) (c.pidFile e.2.Name) e.2)
        ∈ (l.foldl (updateStep c w old) st).trace
      ∧ Event.write (c.envFile e.2.Name) (writeEnvFile c.instanceName (c.confFile e.2.Name))
        ∈ (l.foldl (updateStep c w old) st).trace
      ∧ Event.reload h ∈ (l.foldl (updateStep c w old) st).trace := by
  induction l generalizing st with
  | nil => simp at he
  | cons x xs ih =>
    simp only [List.map_cons, List.nodup_cons] at hl
    simp only [List.foldl_cons]
    rcases List.mem_cons.1 he with hex | hex
    · subst hex
      obtain ⟨u1, u2, u3⟩ := updateInterface_of_open c w e.2
        (match c.runningInterfaces.get? e.2.Name with
         | some p => p
         | none => ⟨unitOf e.2.Name, st.nextId⟩) hopen
      have htr : ∀ ev, ev ∈ c.updateInterface w e.2
          (match c.runningInterfaces.get? e.2.Name with
           | some p => p
           | none => ⟨unitOf e.2.Name, st.nextId⟩) → ev ∈ (updateStep c w old st e).trace := by
        intro ev hev
        rw [updateStep_trace, if_neg hchg]
        exact List.mem_append_right _ hev
      refine ⟨(match c.runningInterfaces.get? e.2.Name with
         | some p => p
         | none => ⟨unitOf e.2.Name, st.nextId⟩), ?_, ?_, ?_, ?_⟩
      · rw [updateFold_get?_of_not_mem c w old xs _ _ hl.1, updateStep_newProcs,
          GoMap.get?_set, if_pos rfl]
      · exact updateFold_trace_mono c w old xs _ _ (htr _ u1)
      · exact updateFold_trace_mono c w old xs _ _ (htr _ u2)
      · apply updateFold_trace_mono c w old xs _ _ (htr _ _)
        apply List.count_pos_iff.1
        rw [u3, if_pos rfl]
        exact Nat.one_pos
    · exact ih (updateStep c w old st x) hl.2 hex

theorem updateFold_count_reload (c : Config) (hc : c.Inv) (w : World)
    (old : GoMap InterfaceConfigData) (hopen : ∀ p, w.openFails p = false)
    (l : List (String × InterfaceConfigData)) (st : UpdateState) (h : Handle) :
    (l.foldl (updateStep c w old) st).trace.count (Event.reload h)
      ≤ st.trace.count (Event.reload h)
        + l.countP (fun e => decide (unitOf e.2.Name = h.unitName)) := by
  induction l generalizing st with
  | nil => simp
  | cons x xs ih =>
    simp only [List.foldl_cons]
    refine le_trans (ih _) ?_
    rw [updateStep_trace, List.count_append, List.countP_cons]
    have hstep : (if x.2 = (old.get? x.2.Name).getD zeroInterface then []
        else c.updateInterface w x.2
          (match c.runningInterfaces.get? x.2.Name with
           | some p => p
           | none => ⟨unitOf x.2.Name, st.nextId⟩)).count (Event.reload h)
        ≤ if decide (unitOf x.2.Name = h.unitName) = true then 1 else 0 := by
      by_cases hx : x.2 = (old.get? x.2.Name).getD zeroInterface
      · rw [if_pos hx]
        simp
      · rw [if_neg hx, (updateInterface_of_open c w x.2 _ hopen).2.2 h]
        by_cases hh : (match c.runningInterfaces.get? x.2.Name with
           | some p => p
           | none => (⟨unitOf x.2.Name, st.nextId⟩ : Handle)) = h
        · have hu := stepHandle_unit c hc x.2.Name st.nextId
          rw [hh] at hu
          simp [hh, hu]
        · rw [if_neg hh]
          exact Nat.zero_le _
    omega

theorem countP_unit_le_one {α : Type} (l : List α) (g : α → String) (u : String)
    (hl : (l.map g).Nodup) :
    l.countP (fun e => decide (unitOf (g e) = u)) ≤ 1 := by
  induction l with
  | nil => simp
  | cons x xs ih =>
    simp only [List.map_cons, List.nodup_cons] at hl
    rw [List.countP_cons]
    by_cases hx : unitOf (g x) = u
    · have hz : xs.countP (fun e => decide (unitOf (g e) = u)) = 0 := by
        apply List.countP_eq_zero.2
        intro y hy hyu
        simp only [decide_eq_true_eq] at hyu
        have : g y = g x := unitOf_injective _ _ (hyu.trans hx.symm)
        exact hl.1 (this ▸ List.mem_map.2 ⟨y, hy, rfl⟩)
      simp [hz, hx]
    · have := ih hl.2
      simp [hx]
      exact this

end Config

/-- For every interface entry of the new snapshot (the last entry of its name)
that differs from the value `Set` compares it with (the previous entry of the
name, or the zero value when the previous snapshot has no entry of the name),
`Set` with succeeding file opens writes the daemon config file and the
environment file of the interface and calls Reload on its handle exactly
once. -/
theorem Set_updates_differing_interface (c : Config) (hc : Reachable c) (new : ConfigData)
    (w : World) (hopen : ∀ p, w.openFails p = false)
    (e : String × InterfaceConfigData) (he : e ∈ Config.indexByName new.Interface.toList)
    (hchg : e.2 ≠ ((Config.indexByName c.Get.Interface.toList).get? e.1).getD zeroInterface) :
    ∃ r h, c.Set (some new) w = some r
      ∧ r.config.runningInterfaces.get? e.1 = some h
      ∧ Event.write (c.confFile e.1) (writeConfig w.date (c.cacheFile e.1) (c.pidFile e.1) e.2)
          ∈ r.trace
      ∧ Event.write (c.envFile e.1) (writeEnvFile c.instanceName (c.confFile e.1)) ∈ r.trace
      ∧ r.trace.count (Event.reload h) = 1 := by
  have hinv := Config.reachable_inv c hc
  obtain ⟨t1, ht, _, _, _, s4⟩ :=
    Config.stopInactive_spec c hinv w (Config.newInterfacesOf (some new))
  have hname : e.2.Name = e.1 := Config.name_of_mem_indexByName new.Interface.toList e he
  have hperm := shuffle_perm w.updateOrder (Config.newInterfacesOf (some new))
  have hnodup : ((shuffle w.updateOrder (Config.newInterfacesOf (some new))).map
      (fun e => e.2.Name)).Nodup := by
    apply (hperm.map _).nodup_iff.2
    rw [Config.names_of_entries _ (Config.name_of_mem_newInterfacesOf (some new))]
    exact Config.nodup_keys_indexByName new.Interface.toList
  have hmem : e ∈ shuffle w.updateOrder (Config.newInterfacesOf (some new)) :=
    hperm.mem_iff.2 he
  have hchg' : e.2 ≠ ((Config.indexByName c.currentConfig.Interface.toList).get? e.2.Name).getD
      zeroInterface := by
    rw [hname]
    exact hchg
  obtain ⟨h, g1, g2, g3, g4⟩ := Config.updateFold_changed c w
    (Config.indexByName c.currentConfig.Interface.toList) hopen _ ⟨[], c.nextId, []⟩ hnodup e hmem hchg'
  rw [hname] at g1 g2 g3
  have hunit : h.unitName = Config.unitOf e.1 :=
    (Config.updateActive_inv c hinv w (Config.indexByName c.currentConfig.Interface.toList)
      (some new)).2 e.1 h g1
  have hbound := Config.updateFold_count_reload c hinv w
    (Config.indexByName c.currentConfig.Interface.toList) hopen
    (shuffle w.updateOrder (Config.newInterfacesOf (some new))) ⟨[], c.nextId, []⟩ h
  have hle : (shuffle w.updateOrder (Config.newInterfacesOf (some new))).countP
      (fun e => decide (Config.unitOf e.2.Name = h.unitName)) ≤ 1 :=
    Config.countP_unit_le_one _ (fun e : String × InterfaceConfigData => e.2.Name)
      h.unitName hnodup
  have hz0 : ({ newProcs := [], nextId := c.nextId, trace := [] } : Config.UpdateState).trace.count
      (Event.reload h) = 0 := rfl
  rw [hz0] at hbound
  have hpos := List.count_pos_iff.2 g4
  have hcount : (c.updateActiveInterfaces w (Config.indexByName c.currentConfig.Interface.toList)
      (Config.newInterfacesOf (some new))).trace.count (Event.reload h) = 1 := by
    unfold Config.updateActiveInterfaces
    omega
  have hz1 : t1.count (Event.reload h) = 0 := by
    apply List.count_eq_zero.2
    intro hm
    rcases s4 _ hm with ⟨x, hx⟩ | ⟨x, hx⟩ | ⟨x, hx⟩ <;> cases hx
  have hz2 : (c.ensureEnvironment w).count (Event.reload h) = 0 := by
    apply List.count_eq_zero.2
    intro hm
    rcases Config.mem_ensureEnvironment c w _ hm with ⟨x, hx⟩ | hx <;> cases hx
  refine ⟨_, h, Config.Set_eq c (some new) w t1 ht, g1, ?_, ?_, ?_⟩
  · simp only [List.mem_append]
    exact Or.inl (Or.inr g2)
  · simp only [List.mem_append]
    exact Or.inl (Or.inr g3)
  · simp only [List.count_append, hz1, hz2, hcount, Option.elim]
    simp

theorem Set_updates_differing_interface_example :
    ∃ r h, demoState.Set (some ⟨some [⟨"eth1", none⟩]⟩) calmWorld = some r
      ∧ r.config.runningInterfaces.get? "eth1" = some h
      ∧ Event.write (demoState.confFile "eth1")
          (writeConfig calmWorld.date (demoState.cacheFile "eth1") (demoState.pidFile "eth1")
            ⟨"eth1", none⟩) ∈ r.trace
      ∧ Event.write (demoState.envFile "eth1")
          (writeEnvFile demoState.instanceName (demoState.confFile "eth1")) ∈ r.trace
      ∧ r.trace.count (Event.reload h) = 1 :=
  Set_updates_differing_interface demoState demoState_reachable ⟨some [⟨"eth1", none⟩]⟩ calmWorld
    (fun _ => rfl) ("eth1", ⟨"eth1", none⟩) (by decide) (by decide)

/-! ## The rendered daemon config -/

theorem mapServiceNames_eq_lookup (name : String) :
    mapServiceNames name = (protocolTable.lookup name).getD name := by
  unfold mapServiceNames protocolTable
  by_cases h1 : name = "dslreports"
  · subst h1
    decide
  · by_cases h2 : name = "dyndns"
    · subst h2
      decide
    · by_cases h3 : name = "zoneedit"
      · subst h3
        decide
      · have e1 : (name == "dslreports") = false := by simpa using h1
        have e2 : (name == "dyndns") = false := by simpa using h2
        have e3 : (name == "zoneedit") = false := by simpa using h3
        simp [h1, h2, h3, List.lookup, e1, e2, e3]

theorem execHostName_eq (buf : String) (s : ServiceConfigData) (host : String) :
    execHostName buf s host = buf ++ unlines (stanzaLines s host) := by
  have l1 : "max-interval=28d\nlogin=" = "max-interval=28d" ++ ("\n" ++ "login=") := by decide
  have l2 : "\npassword=" = "\n" ++ "password=" := by decide
  have l3 : "\n\n" = "\n" ++ ("\n" ++ "") := by decide
  have l4 : ",\n" = "," ++ "\n" := by decide
  unfold execHostName stanzaLines
  rw [mapServiceNames_eq_lookup]
  by_cases h : s.Server = ""
  · simp only [h, ne_eq, not_true_eq_false, if_false, if_true, unlines, List.foldr,
      String.append_assoc, l1, l2, l3]
    simp
  · simp only [h, ne_eq, not_false_eq_true, if_false, if_true, unlines, List.foldr,
      String.append_assoc, l1, l2, l3, l4]
    simp

theorem append_concatAll (a : String) (l : List String) :
    concatAll (a :: l) = a ++ concatAll l := rfl

theorem concatAll_append (l1 l2 : List String) :
    concatAll (l1 ++ l2) = concatAll l1 ++ concatAll l2 := by
  induction l1 with
  | nil => simp [concatAll]
  | cons a l ih =>
    rw [List.cons_append, append_concatAll, append_concatAll, ih, String.append_assoc]

theorem execService_eq (buf : String) (s : ServiceConfigData) :
    execService buf s
      = buf ++ concatAll (s.HostName.toList.map (fun host => unlines (stanzaLines s host))) := by
  unfold execService
  generalize s.HostName.toList = hosts
  induction hosts generalizing buf with
  | nil => simp [concatAll]
  | cons h hs ih =>
    rw [List.foldl_cons, ih, execHostName_eq, List.map_cons, append_concatAll,
      String.append_assoc]

theorem foldl_execService_eq (buf : String) (services : List ServiceConfigData) :
    services.foldl execService buf
      = buf ++ concatAll ((services.flatMap
          (fun s => s.HostName.toList.map (fun host => (s, host)))).map
            (fun p => unlines (stanzaLines p.1 p.2))) := by
  induction services generalizing buf with
  | nil => simp [concatAll]
  | cons s ss ih =>
    rw [List.foldl_cons, ih, execService_eq, List.flatMap_cons, List.map_append,
      concatAll_append, String.append_assoc, List.map_map]
    rfl

theorem length_serviceHostPairs (c : InterfaceConfigData) :
    (serviceHostPairs c).length = (c.Service.toList.map (fun s => s.HostName.toList.length)).sum := by
  unfold serviceHostPairs
  generalize c.Service.toList = services
  induction services with
  | nil => rfl
  | cons s ss ih => simp [List.flatMap_cons, ih]

/-- C9: the text rendered by `writeConfig` is the header (timestamp comment,
`daemon=1m`, `syslog=yes`, `ssl=yes`, the pid file, the cache file,
`use=if, if=<name>`) followed by one stanza per (service, host name) pair, in
service order and then host-name order, so that the number of stanzas is the
sum of the host-name counts of the services; a stanza is the protocol line,
the server line exactly when the server field is not empty, `max-interval=28d`,
the login, the password and the host name; the protocol is `dslreports1` for
`dslreports`, `dyndns2` for `dyndns`, `zoneedit1` for `zoneedit`, and the
service name itself otherwise. -/
theorem writeConfig_renders_header_and_stanzas (date cacheFile pidFile : String)
    (c : InterfaceConfigData) :
    writeConfig date cacheFile pidFile c
        = unlines (cfgHeaderLines date cacheFile pidFile c.Name)
          ++ concatAll ((serviceHostPairs c).map (fun p => unlines (stanzaLines p.1 p.2)))
      ∧ (serviceHostPairs c).length = (c.Service.toList.map (fun s => s.HostName.toList.length)).sum
      ∧ serviceHostPairs c = c.Service.toList.flatMap (fun s => s.HostName.toList.map (fun host => (s, host)))
      ∧ (∀ s host, s.Server = "" → stanzaLines s host =
          ["protocol=" ++ mapServiceNames s.Name, "max-interval=28d", "login=" ++ s.Login,
           "password=" ++ s.Password, host, ""])
      ∧ (∀ s host, s.Server ≠ "" → stanzaLines s host =
          ["protocol=" ++ mapServiceNames s.Name, "server=" ++ s.Server ++ ",",
           "max-interval=28d", "login=" ++ s.Login, "password=" ++ s.Password, host, ""])
      ∧ mapServiceNames "dslreports" = "dslreports1"
      ∧ mapServiceNames "dyndns" = "dyndns2"
      ∧ mapServiceNames "zoneedit" = "zoneedit1"
      ∧ (∀ name, name ≠ "dslreports" → name ≠ "dyndns" → name ≠ "zoneedit" →
          mapServiceNames name = name) := by
  refine ⟨?_, length_serviceHostPairs c, rfl, ?_, ?_, by decide, by decide, by decide, ?_⟩
  · have l1 : "#\n# autogenerated by vci-service-dns on "
        = "#" ++ ("\n" ++ "# autogenerated by vci-service-dns on ") := by decide
    have l2 : "\n#\ndaemon=1m\nsyslog=yes\nssl=yes\npid="
        = "\n" ++ ("#" ++ ("\n" ++ ("daemon=1m" ++ ("\n" ++ ("syslog=yes" ++ ("\n"
            ++ ("ssl=yes" ++ ("\n" ++ "pid=")))))))) := by decide
    have l3 : "\ncache=" = "\n" ++ "cache=" := by decide
    have l4 : "\nuse=if, if=" = "\n" ++ "use=if, if=" := by decide
    have l5 : "\n\n\n" = "\n" ++ ("" ++ ("\n" ++ ("" ++ ("\n" ++ "")))) := by decide
    unfold writeConfig serviceHostPairs
    simp only []
    rw [foldl_execService_eq]
    congr 1
    simp only [cfgHeaderLines, unlines, List.foldr, String.append_assoc, l1, l2, l3, l4, l5]
  · intro s host h
    simp [stanzaLines, h, mapServiceNames_eq_lookup]
  · intro s host h
    simp [stanzaLines, h, mapServiceNames_eq_lookup]
  · intro name h1 h2 h3
    simp [mapServiceNames, h1, h2, h3]

set_option maxRecDepth 100000 in
theorem writeConfig_renders_header_and_stanzas_witness :
    writeConfig "Thu Jan  1 00:00:00 UTC 1970" "/c" "/p"
        ⟨"eth0", some [⟨"dyndns", "p", "u", "", some ["a", "b"]⟩, ⟨"x", "q", "v", "srv", some ["c"]⟩]⟩
      = "#\n# autogenerated by vci-service-dns on Thu Jan  1 00:00:00 UTC 1970\n#\ndaemon=1m\nsyslog=yes\nssl=yes\npid=/p\ncache=/c\nuse=if, if=eth0\n\n\nprotocol=dyndns2\nmax-interval=28d\nlogin=u\npassword=p\na\n\nprotocol=dyndns2\nmax-interval=28d\nlogin=u\npassword=p\nb\n\nprotocol=x\nserver=srv,\nmax-interval=28d\nlogin=v\npassword=q\nc\n\n" := by
  rw [(writeConfig_renders_header_and_stanzas _ _ _ _).1]
  decide

/-! ## The nameservers of a lease file -/

theorem appendServers_eq (ns : List String) (fields : List (List Char)) :
    appendServers ns fields = ns ++ (fields.drop 1).map (fun t => String.mk (trimQuotes t)) := by
  unfold appendServers
  generalize fields.drop 1 = l
  induction l generalizing ns with
  | nil => simp
  | cons x xs ih => simp [List.foldl_cons, ih]

theorem readFold_eq (lines : List (List Char)) (ns : List String) :
    lines.foldl
      (fun ns line =>
        if containsChars dhcpMarker.data line then
          appendServers ns (splitOnChars isFieldSep line)
        else ns) ns
      = ns ++ lines.flatMap (fun line =>
          if containsChars dhcpMarker.data line then
            ((splitOnChars isFieldSep line).drop 1).map (fun t => String.mk (trimQuotes t))
          else []) := by
  induction lines generalizing ns with
  | nil => simp
  | cons x xs ih =>
    rw [List.foldl_cons, ih, List.flatMap_cons]
    by_cases h : containsChars dhcpMarker.data x = true
    · simp [h, appendServers_eq]
    · simp [h]

theorem tokensAfterMarker_of_head (fields : List (List Char))
    (h : fields.head? = some dhcpMarker.data) :
    tokensAfterMarker fields = fields.drop 1 := by
  cases fields with
  | nil => simp at h
  | cons f fs =>
    simp only [List.head?_cons, Option.some.injEq] at h
    subst h
    simp [tokensAfterMarker, List.dropWhile]

/-- The scanner delivers the lines before the first one that is too long. -/
theorem scannedLines_eq_takeWhile (lines : List (List Char)) :
    scannedLines lines
      = lines.takeWhile (fun line => decide (lineBytes line < maxScanTokenSize)) := by
  induction lines with
  | nil => rfl
  | cons x xs ih =>
    by_cases h : maxScanTokenSize ≤ lineBytes x
    · have h' : ¬ lineBytes x < maxScanTokenSize := Nat.not_lt.2 h
      simp [scannedLines, List.takeWhile, h, h']
    · have h' : lineBytes x < maxScanTokenSize := Nat.lt_of_not_le h
      simp [scannedLines, List.takeWhile, h, h', ih]

theorem scannedLines_of_short (lines : List (List Char))
    (h : ∀ line ∈ lines, lineBytes line < maxScanTokenSize) : scannedLines lines = lines := by
  induction lines with
  | nil => rfl
  | cons x xs ih =>
    have hx : ¬ maxScanTokenSize ≤ lineBytes x := Nat.not_le.2 (h x (List.mem_cons_self _ _))
    simp [scannedLines, hx, ih (fun l hl => h l (List.mem_cons_of_mem _ hl))]

theorem scannedLines_append_short (before rest : List (List Char))
    (h : ∀ line ∈ before, lineBytes line < maxScanTokenSize) :
    scannedLines (before ++ rest) = before ++ scannedLines rest := by
  induction before with
  | nil => rfl
  | cons x xs ih =>
    have hx : ¬ maxScanTokenSize ≤ lineBytes x := Nat.not_le.2 (h x (List.mem_cons_self _ _))
    simp [scannedLines, hx, ih (fun l hl => h l (List.mem_cons_of_mem _ hl))]

theorem mem_of_mem_scannedLines (lines : List (List Char)) (line : List Char)
    (h : line ∈ scannedLines lines) : line ∈ lines := by
  induction lines with
  | nil => simp [scannedLines] at h
  | cons x xs ih =>
    by_cases hx : maxScanTokenSize ≤ lineBytes x
    · simp [scannedLines, hx] at h
    · simp only [scannedLines, hx, if_false, List.mem_cons] at h
      rcases h with h | h
      · exact h ▸ List.mem_cons_self _ _
      · exact List.mem_cons_of_mem _ (ih h)

theorem readDhcpNameservers_eq_flatMap (r : LeaseReader) :
    readDhcpNameservers r
      = (leaseLines r).flatMap (fun line =>
          if containsChars dhcpMarker.data line then
            ((splitOnChars isFieldSep line).drop 1).map (fun t => String.mk (trimQuotes t))
          else []) := by
  unfold readDhcpNameservers
  rw [readFold_eq]
  simp

/-- C7, as amended: `readDhcpNameservers` returns, for each line containing
the marker among the lines read before the reader fails (a line of 65536 bytes
or more, or a read error, ends the reading, and the lines before it count),
the fields of the line after its first field (the line being split on `=` or
space), each with the single quotes at its ends stripped, in file order and
with duplicates kept; lines without the marker contribute nothing.  When the
file is read to its end, no line has 65536 bytes or more, and the first field
of every line containing the marker is the marker, these are exactly the
tokens that follow the marker in the lines of the file. -/
theorem readDhcpNameservers_fields_after_first (r : LeaseReader) :
    readDhcpNameservers r
        = ((rawLines r.chars).takeWhile
            (fun line => decide (lineBytes line < maxScanTokenSize))).flatMap (fun line =>
            if containsChars dhcpMarker.data line then
              ((splitOnChars isFieldSep line).drop 1).map (fun t => String.mk (trimQuotes t))
            else [])
      ∧ (r.failAfter = none →
          (∀ line ∈ rawLines r.content.data, lineBytes line < maxScanTokenSize) →
          (∀ line ∈ rawLines r.content.data, containsChars dhcpMarker.data line = true →
            (splitOnChars isFieldSep line).head? = some dhcpMarker.data) →
          readDhcpNameservers r = nameserversAfterMarker r.content) := by
  have h1 := readDhcpNameservers_eq_flatMap r
  constructor
  · rw [h1, leaseLines, scannedLines_eq_takeWhile]
  · intro hfail hshort hfirst
    have hchars : r.chars = r.content.data := by
      unfold LeaseReader.chars
      rw [hfail]
    rw [h1, leaseLines, hchars, scannedLines_of_short _ hshort]
    unfold nameserversAfterMarker
    apply List.flatMap_congr
    intro line hline
    by_cases hc : containsChars dhcpMarker.data line = true
    · simp only [hc, if_true]
      rw [tokensAfterMarker_of_head _ (hfirst line hline hc)]
    · simp [hc]

theorem readDhcpNameservers_fields_after_first_witness :
    readDhcpNameservers
        ⟨"a=b\nnew_domain_name_servers='1.1.1.1' '8.8.8.8' '1.1.1.1'\n", none⟩
        = ["1.1.1.1", "8.8.8.8", "1.1.1.1"]
      ∧ nameserversAfterMarker "a=b\nnew_domain_name_servers='1.1.1.1' '8.8.8.8' '1.1.1.1'\n"
        = ["1.1.1.1", "8.8.8.8", "1.1.1.1"]
      ∧ readDhcpNameservers
        ⟨"a=b\nnew_domain_name_servers='1.1.1.1' '8.8.8.8' '1.1.1.1'\n", some 42⟩
        = ["1.1.1.1", "8.8"] := by
  have h := (readDhcpNameservers_fields_after_first
    ⟨"a=b\nnew_domain_name_servers='1.1.1.1' '8.8.8.8' '1.1.1.1'\n", none⟩).2
    rfl (by decide) (by decide)
  have h2 := (readDhcpNameservers_fields_after_first
    ⟨"a=b\nnew_domain_name_servers='1.1.1.1' '8.8.8.8' '1.1.1.1'\n", some 42⟩).1
  exact ⟨by decide, h ▸ (by decide), h2.trans (by decide)⟩

/-- C7, as stated, fails: on the line ` new_domain_name_servers=1.1.1.1`, which
begins with a space, the marker is the second field, and `readDhcpNameservers`
(the file being read to its end) returns the marker itself together with the
address, not only the token that follows the marker. -/
theorem readDhcpNameservers_returns_marker_token :
    readDhcpNameservers ⟨" new_domain_name_servers=1.1.1.1", none⟩
        = ["new_domain_name_servers", "1.1.1.1"]
      ∧ nameserversAfterMarker " new_domain_name_servers=1.1.1.1" = ["1.1.1.1"]
      ∧ readDhcpNameservers ⟨" new_domain_name_servers=1.1.1.1", none⟩
        ≠ nameserversAfterMarker " new_domain_name_servers=1.1.1.1" := by
  decide

/-! ## The forwarding config written from a lease file -/

theorem Files.get_put_same (fs : Files) (p t : String) : (fs.put p t).get p = some t := by
  simp [Files.put, Files.get]

theorem Files.get_put_of_resolve_eq (fs : Files) (p q t : String)
    (h : fs.resolve q = fs.resolve p) : (fs.put p t).get q = some t := by
  simp [Files.put, Files.get, h]

theorem Files.get_put_other (fs : Files) (p q t : String) (h : fs.resolve q ≠ fs.resolve p) :
    (fs.put p t).get q = fs.get q := by
  simp [Files.put, Files.get, h]

theorem readDhcpNameservers_empty (failAfter : Option Nat) :
    readDhcpNameservers ⟨"", failAfter⟩ = [] := by
  have hchars : (⟨"", failAfter⟩ : LeaseReader).chars = [] := by
    cases failAfter with
    | none => rfl
    | some k =>
      show List.take k [] = []
      simp
  rw [readDhcpNameservers_eq_flatMap, leaseLines, hchars]
  decide

theorem writeDnsmasqDhcpConfig_nil (intf : String) : writeDnsmasqDhcpConfig intf [] = none := rfl

/-- The outcome of `writeConffileFromDhclient` and of `createOrWrite` when the
lease file yields no nameserver and the files can be opened. -/
theorem writeConffile_of_no_nameservers (w : dhcpWatcher) (env : WatchWorld)
    (fs : Files) (file intf content : String)
    (hwatch : w.fileToIntf.get? file = some intf)
    (hfile : fs.get file = some content)
    (hns : readDhcpNameservers ⟨content, env.readFailsAfter file⟩ = [])
    (hopen : env.openFails file = false)
    (hcreate : env.createFails (w.confFileFmt.apply intf) = false) :
    w.writeConffileFromDhclient env fs file = ⟨fs.put (w.confFileFmt.apply intf) "", [], none⟩
      ∧ w.createOrWrite env fs file
        = ⟨fs.put (w.confFileFmt.apply intf) "", [w.proc],
            if env.reloadFails w.proc then some "reload" else none⟩ := by
  have hread : readDhcpNameservers
      ⟨((fs.put (w.confFileFmt.apply intf) "").get file).getD "",
        env.readFailsAfter file⟩ = [] := by
    by_cases hq : fs.resolve file = fs.resolve (w.confFileFmt.apply intf)
    · rw [Files.get_put_of_resolve_eq _ _ _ _ hq]
      exact readDhcpNameservers_empty _
    · rw [Files.get_put_other _ _ _ _ hq, hfile]
      exact hns
  have hres : w.writeConffileFromDhclient env fs file
      = ⟨fs.put (w.confFileFmt.apply intf) "", [], none⟩ := by
    unfold dhcpWatcher.writeConffileFromDhclient
    simp only [hfile, hopen, hwatch, Option.getD_some, hcreate, hread,
      writeDnsmasqDhcpConfig_nil]
    simp
  refine ⟨hres, ?_⟩
  unfold dhcpWatcher.createOrWrite
  simp only [hres]

/-- C6, as amended: when the lease file of a watched interface yields no
nameserver and the files can be opened, `writeConffileFromDhclient` returns
without error and writes nothing into the forwarding config of the interface,
neither the header nor a server line; but it has created that file, or
truncated it if it existed, so that afterwards the file exists and is empty.
No other file changes, and the create and write events then reload the
forwarding process once. -/
theorem writeConffile_empty_nameservers_leaves_empty_file (w : dhcpWatcher) (env : WatchWorld)
    (fs : Files) (file intf content : String)
    (hwatch : w.fileToIntf.get? file = some intf)
    (hfile : fs.get file = some content)
    (hns : readDhcpNameservers ⟨content, env.readFailsAfter file⟩ = [])
    (hopen : env.openFails file = false)
    (hcreate : env.createFails (w.confFileFmt.apply intf) = false) :
    (w.writeConffileFromDhclient env fs file).err = none
      ∧ (w.writeConffileFromDhclient env fs file).files.get (w.confFileFmt.apply intf) = some ""
      ∧ (∀ q, fs.resolve q ≠ fs.resolve (w.confFileFmt.apply intf) →
          (w.writeConffileFromDhclient env fs file).files.get q = fs.get q)
      ∧ (w.createOrWrite env fs file).files.get (w.confFileFmt.apply intf) = some ""
      ∧ (w.createOrWrite env fs file).reloads = [w.proc] := by
  obtain ⟨hres, hcw⟩ := writeConffile_of_no_nameservers w env fs file intf content hwatch hfile
    hns hopen hcreate
  rw [hres, hcw]
  exact ⟨rfl, Files.get_put_same _ _ _, fun q hq => Files.get_put_other _ _ _ _ hq,
    Files.get_put_same _ _ _, rfl⟩

theorem writeConffile_empty_nameservers_leaves_empty_file_witness :
    (oneFile "/lease/eth0" "old_domain_name_servers='1.1.1.1'\n").get "/lease/eth0"
        = some "old_domain_name_servers='1.1.1.1'\n"
      ∧ readDhcpNameservers ⟨"old_domain_name_servers='1.1.1.1'\n", none⟩ = []
      ∧ (dhcpWatcher.writeConffileFromDhclient
          ⟨⟨"dnsmasq.service", 0⟩, [("/lease/eth0", "eth0")], ⟨"/run/dhcp-", ".conf"⟩⟩
          calmWatchWorld (oneFile "/lease/eth0" "old_domain_name_servers='1.1.1.1'\n")
          "/lease/eth0").files.get "/run/dhcp-eth0.conf" = some "" :=
  ⟨by decide, by decide,
    (writeConffile_empty_nameservers_leaves_empty_file
      ⟨⟨"dnsmasq.service", 0⟩, [("/lease/eth0", "eth0")], ⟨"/run/dhcp-", ".conf"⟩⟩
      calmWatchWorld (oneFile "/lease/eth0" "old_domain_name_servers='1.1.1.1'\n")
      "/lease/eth0" "eth0" "old_domain_name_servers='1.1.1.1'\n"
      (by decide) (by decide) (by decide) rfl rfl).2.1⟩

/-- C6, as stated, fails: the lease file of the watched interface `eth0` has
no nameserver line, the forwarding config of `eth0` does not exist before the
lease file is processed, and it exists (empty) afterwards: it was created by
the open that precedes the check on the nameserver list. -/
theorem writeConffile_creates_file_without_nameservers :
    readDhcpNameservers ⟨"old_domain_name_servers='1.1.1.1'\n", none⟩ = []
      ∧ (oneFile "/lease/eth0" "old_domain_name_servers='1.1.1.1'\n").get
          "/run/dhcp-eth0.conf" = none
      ∧ (dhcpWatcher.writeConffileFromDhclient
          ⟨⟨"dnsmasq.service", 0⟩, [("/lease/eth0", "eth0")], ⟨"/run/dhcp-", ".conf"⟩⟩
          calmWatchWorld (oneFile "/lease/eth0" "old_domain_name_servers='1.1.1.1'\n")
          "/lease/eth0").files.get "/run/dhcp-eth0.conf" = some ""
      ∧ ((startDhcpWatcher ["eth0"] ⟨"dnsmasq.service", 0⟩ ⟨"/lease/", ""⟩
          ⟨"/run/dhcp-", ".conf"⟩ calmWatchWorld
          (oneFile "/lease/eth0" "old_domain_name_servers='1.1.1.1'\n")).2.get
            "/run/dhcp-eth0.conf") = some "" := by
  decide

/-! ## The lease ingestion round trip -/

theorem splitOnChars_ne_nil (p : Char → Bool) (l : List Char) : splitOnChars p l ≠ [] := by
  cases l with
  | nil => simp [splitOnChars]
  | cons ch rest =>
    unfold splitOnChars
    cases splitOnChars p rest with
    | nil => simp
    | cons piece pieces => by_cases h : p ch = true <;> simp [h]

theorem splitOnChars_free (p : Char → Bool) (l : List Char) (hl : ∀ ch ∈ l, p ch = false) :
    splitOnChars p l = [l] := by
  induction l with
  | nil => rfl
  | cons ch rest ih =>
    have h1 := ih (fun x hx => hl x (List.mem_cons_of_mem _ hx))
    have h2 := hl ch (List.mem_cons_self _ _)
    simp [splitOnChars, h1, h2]

theorem splitOnChars_append_sep (p : Char → Bool) (a b : List Char) (sep : Char)
    (ha : ∀ ch ∈ a, p ch = false) (hsep : p sep = true) :
    splitOnChars p (a ++ sep :: b) = a :: splitOnChars p b := by
  induction a with
  | nil =>
    simp only [List.nil_append, splitOnChars]
    cases h : splitOnChars p b with
    | nil => exact absurd h (splitOnChars_ne_nil p b)
    | cons piece pieces => simp [hsep]
  | cons ch rest ih =>
    have h1 := ih (fun x hx => ha x (List.mem_cons_of_mem _ hx))
    have h2 := ha ch (List.mem_cons_self _ _)
    rw [List.cons_append, splitOnChars, h1]
    simp [h2]

theorem splitOnChars_joinWith (p : Char → Bool) (sep : Char) (pieces : List (List Char))
    (hne : pieces ≠ []) (hp : ∀ a ∈ pieces, ∀ ch ∈ a, p ch = false) (hsep : p sep = true) :
    splitOnChars p (joinWith sep pieces) = pieces := by
  induction pieces with
  | nil => exact absurd rfl hne
  | cons a rest ih =>
    cases rest with
    | nil =>
      simp only [joinWith]
      exact splitOnChars_free p a (hp a (List.mem_cons_self _ _))
    | cons b rest' =>
      simp only [joinWith]
      rw [splitOnChars_append_sep p a _ sep (hp a (List.mem_cons_self _ _)) hsep,
        ih (by simp) (fun x hx => hp x (List.mem_cons_of_mem _ hx))]

theorem containsChars_of_isPrefixOf (pat l : List Char) (h : pat.isPrefixOf l = true) :
    containsChars pat l = true := by
  cases l with
  | nil => simpa [containsChars] using h
  | cons ch rest => simp [containsChars, h]

theorem dropWhile_of_head (p : Char → Bool) (l : List Char)
    (h : ∀ ch, l.head? = some ch → p ch = false) : l.dropWhile p = l := by
  cases l with
  | nil => rfl
  | cons ch rest => simp [List.dropWhile, h ch rfl]

theorem trimQuotes_quoted (a : List Char) (ha : ∀ ch ∈ a, isQuote ch = false) :
    trimQuotes (Char.ofNat 39 :: a ++ [Char.ofNat 39]) = a := by
  have hq : isQuote (Char.ofNat 39) = true := by decide
  unfold trimQuotes
  have h1 : (Char.ofNat 39 :: a ++ [Char.ofNat 39]).dropWhile isQuote
      = (a ++ [Char.ofNat 39]).dropWhile isQuote := by
    simp [List.dropWhile, hq]
  rw [h1]
  cases a with
  | nil => simp [List.dropWhile, hq]
  | cons x xs =>
    have hx : isQuote x = false := ha x (List.mem_cons_self _ _)
    have h2 : (x :: xs ++ [Char.ofNat 39]).dropWhile isQuote = x :: xs ++ [Char.ofNat 39] := by
      simp [List.dropWhile, hx]
    rw [h2]
    have h3 : (x :: xs ++ [Char.ofNat 39]).reverse = Char.ofNat 39 :: (x :: xs).reverse := by
      simp
    rw [h3]
    have h4 : (Char.ofNat 39 :: (x :: xs).reverse).dropWhile isQuote
        = ((x :: xs).reverse).dropWhile isQuote := by
      simp [List.dropWhile, hq]
    rw [h4, dropWhile_of_head isQuote (x :: xs).reverse, List.reverse_reverse]
    intro ch hch
    apply ha
    have : ch ∈ (x :: xs).reverse := by
      cases hr : (x :: xs).reverse with
      | nil => rw [hr] at hch; simp at hch
      | cons y ys =>
        rw [hr] at hch
        simp only [List.head?_cons, Option.some.injEq] at hch
        rw [← hch]
        exact List.mem_cons_self _ _
    exact List.mem_reverse.1 this

/-- The fields of the marker line and the nameservers read from it. -/
theorem fields_markerLine (addrs : List String) (hne : addrs ≠ [])
    (hclean : ∀ a ∈ addrs, ∀ ch ∈ a.data, isQuote ch = false ∧ isFieldSep ch = false) :
    splitOnChars isFieldSep (markerLine addrs)
      = dhcpMarker.data :: addrs.map (fun a => Char.ofNat 39 :: a.data ++ [Char.ofNat 39]) := by
  unfold markerLine
  rw [splitOnChars_append_sep isFieldSep _ _ _ (by decide) (by decide)]
  rw [splitOnChars_joinWith isFieldSep _ _ (by simpa using hne) _ (by decide)]
  intro piece hpiece ch hch
  obtain ⟨a, ha, rfl⟩ := List.mem_map.1 hpiece
  simp only [List.cons_append, List.mem_cons, List.mem_append, List.mem_singleton,
    List.not_mem_nil, or_false] at hch
  rcases hch with rfl | hch | rfl
  · decide
  · exact (hclean a ha ch hch).2
  · decide

theorem servers_markerLine (addrs : List String) (hne : addrs ≠ [])
    (hclean : ∀ a ∈ addrs, ∀ ch ∈ a.data, isQuote ch = false ∧ isFieldSep ch = false) :
    ((splitOnChars isFieldSep (markerLine addrs)).drop 1).map
      (fun t => String.mk (trimQuotes t)) = addrs := by
  rw [fields_markerLine addrs hne hclean]
  simp only [List.drop_succ_cons, List.drop_zero, List.map_map]
  conv_rhs => rw [← List.map_id addrs]
  apply List.map_congr_left
  intro a ha
  simp only [Function.comp, id]
  rw [trimQuotes_quoted a.data (fun ch hch => (hclean a ha ch hch).1)]

theorem contains_markerLine (addrs : List String) :
    containsChars dhcpMarker.data (markerLine addrs) = true := by
  apply containsChars_of_isPrefixOf
  unfold markerLine
  rw [List.isPrefixOf_iff_prefix]
  exact List.prefix_append _ _

/-- The nameservers of a lease file that is read without error and whose only
marker line is `markerLine`. -/
theorem readDhcpNameservers_single_marker (r : LeaseReader) (addrs : List String)
    (before after : List (List Char))
    (hfail : r.failAfter = none)
    (hlines : rawLines r.content.data = before ++ [markerLine addrs] ++ after)
    (hshort : ∀ l ∈ before ++ [markerLine addrs], lineBytes l < maxScanTokenSize)
    (hother : ∀ l ∈ before ++ after, containsChars dhcpMarker.data l = false)
    (hne : addrs ≠ [])
    (hclean : ∀ a ∈ addrs, ∀ ch ∈ a.data, isQuote ch = false ∧ isFieldSep ch = false) :
    readDhcpNameservers r = addrs := by
  have hchars : r.chars = r.content.data := by
    unfold LeaseReader.chars
    rw [hfail]
  have hscan : scannedLines (before ++ [markerLine addrs] ++ after)
      = before ++ [markerLine addrs] ++ scannedLines after :=
    scannedLines_append_short _ _ hshort
  have hnil : ∀ ls : List (List Char), (∀ l ∈ ls, containsChars dhcpMarker.data l = false) →
      ls.flatMap (fun line =>
        if containsChars dhcpMarker.data line then
          ((splitOnChars isFieldSep line).drop 1).map (fun t => String.mk (trimQuotes t))
        else []) = [] := by
    intro ls hls
    rw [List.flatMap_eq_nil_iff]
    intro l hl
    simp [hls l hl]
  rw [readDhcpNameservers_eq_flatMap r, leaseLines, hchars, hlines, hscan,
    List.flatMap_append, List.flatMap_append,
    hnil before (fun l hl => hother l (List.mem_append_left _ hl)),
    hnil (scannedLines after) (fun l hl =>
      hother l (List.mem_append_right _ (mem_of_mem_scannedLines _ _ hl)))]
  simp only [List.flatMap_cons, List.flatMap_nil, contains_markerLine, if_true,
    servers_markerLine addrs hne hclean, List.nil_append, List.append_nil]

theorem unlines_append (l1 l2 : List String) : unlines (l1 ++ l2) = unlines l1 ++ unlines l2 := by
  induction l1 with
  | nil => simp [unlines]
  | cons a l ih =>
    have h : ∀ x (xs : List String), unlines (x :: xs) = x ++ "\n" ++ unlines xs := fun _ _ => rfl
    rw [List.cons_append, h, h, ih]
    simp [String.append_assoc]

theorem serverFold_eq (intf : String) (addrs : List String) (buf : String) :
    addrs.foldl (fun buf server => buf ++ "server=" ++ server ++ "\t# dhcp " ++ intf ++ "\n") buf
      = buf ++ unlines (addrs.map (fun a => "server=" ++ a ++ "\t# dhcp " ++ intf)) := by
  induction addrs generalizing buf with
  | nil => simp [unlines]
  | cons a l ih =>
    have h : ∀ x (xs : List String), unlines (x :: xs) = x ++ "\n" ++ unlines xs := fun _ _ => rfl
    rw [List.foldl_cons, ih, List.map_cons, h]
    simp [String.append_assoc]

theorem writeDnsmasqDhcpConfig_cons (intf : String) (addrs : List String) (hne : addrs ≠ []) :
    writeDnsmasqDhcpConfig intf addrs = some (unlines (forwardingLines intf addrs)) := by
  have hlen : ¬ addrs.length = 0 := by
    intro h
    exact hne (List.length_eq_zero.1 h)
  have hhead : "### Autogenerated by vci-service-dns\n### Note: Manual changes to this file will be lost.\n"
      = unlines ["### Autogenerated by vci-service-dns",
          "### Note: Manual changes to this file will be lost."] := by decide
  unfold writeDnsmasqDhcpConfig forwardingLines
  rw [if_neg hlen, serverFold_eq, unlines_append, hhead]


/-- C8, as amended: for a watched lease file whose only marker line is
`new_domain_name_servers='a1' ... 'an'`, with at least one address and no
quote, `=` or space inside an address, the handling of a create or write event
writes a forwarding config that is the two header lines followed by the lines
`server=<ai>\t# dhcp <interface>` in the order of the addresses, and calls
Reload on the forwarding process once, provided that the lease file is read
without error up to and including the marker line (no read error, no line of
65536 bytes or more), that the forwarding config and the lease file are two
files, and that the opens and the write succeed. -/
theorem createOrWrite_writes_servers_and_reloads (w : dhcpWatcher) (env : WatchWorld)
    (fs : Files) (file intf content : String) (addrs : List String)
    (before after : List (List Char))
    (hwatch : w.fileToIntf.get? file = some intf)
    (hfile : fs.get file = some content)
    (hlines : rawLines content.data = before ++ [markerLine addrs] ++ after)
    (hother : ∀ l ∈ before ++ after, containsChars dhcpMarker.data l = false)
    (hne : addrs ≠ [])
    (hclean : ∀ a ∈ addrs, ∀ ch ∈ a.data,
      ch ≠ Char.ofNat 39 ∧ ch ≠ Char.ofNat 61 ∧ ch ≠ Char.ofNat 32)
    (hread : env.readFailsAfter file = none)
    (hshort : ∀ l ∈ before ++ [markerLine addrs], lineBytes l < maxScanTokenSize)
    (hdistinct : fs.resolve file ≠ fs.resolve (w.confFileFmt.apply intf))
    (hopen : env.openFails file = false)
    (hcreate : env.createFails (w.confFileFmt.apply intf) = false)
    (hwrite : env.writeFailsAfter (w.confFileFmt.apply intf) = none) :
    (w.Write env fs file).files.get (w.confFileFmt.apply intf)
        = some (unlines (forwardingLines intf addrs))
      ∧ (w.Write env fs file).reloads = [w.proc]
      ∧ w.Create env fs file = w.Write env fs file
      ∧ (forwardingLines intf addrs).length = 2 + addrs.length := by
  have hclean' : ∀ a ∈ addrs, ∀ ch ∈ a.data, isQuote ch = false ∧ isFieldSep ch = false := by
    intro a ha ch hch
    obtain ⟨h1, h2, h3⟩ := hclean a ha ch hch
    simp [isQuote, isFieldSep, h1, h2, h3]
  have hns := readDhcpNameservers_single_marker ⟨content, env.readFailsAfter file⟩ addrs
    before after hread hlines hshort hother hne hclean'
  have hread' : readDhcpNameservers
      ⟨((fs.put (w.confFileFmt.apply intf) "").get file).getD "",
        env.readFailsAfter file⟩ = addrs := by
    rw [Files.get_put_other _ _ _ _ hdistinct, hfile]
    exact hns
  have hres : w.writeConffileFromDhclient env fs file
      = ⟨(fs.put (w.confFileFmt.apply intf) "").put (w.confFileFmt.apply intf)
          (unlines (forwardingLines intf addrs)), [], none⟩ := by
    unfold dhcpWatcher.writeConffileFromDhclient
    simp only [hfile, hopen, hwatch, Option.getD_some, hcreate, hread',
      writeDnsmasqDhcpConfig_cons intf addrs hne, hwrite]
    simp
  have hcw : w.createOrWrite env fs file
      = ⟨(fs.put (w.confFileFmt.apply intf) "").put (w.confFileFmt.apply intf)
          (unlines (forwardingLines intf addrs)), [w.proc],
          if env.reloadFails w.proc then some "reload" else none⟩ := by
    unfold dhcpWatcher.createOrWrite
    simp only [hres]
  refine ⟨?_, ?_, rfl, ?_⟩
  · unfold dhcpWatcher.Write
    rw [hcw]
    exact Files.get_put_of_resolve_eq _ _ _ _ rfl
  · unfold dhcpWatcher.Write
    rw [hcw]
  · simp [forwardingLines]
    omega

theorem createOrWrite_writes_servers_and_reloads_witness :
    (dhcpWatcher.Write
        ⟨⟨"dnsmasq.service", 0⟩, [("/lease/eth0", "eth0")], ⟨"/run/dhcp-", ".conf"⟩⟩
        calmWatchWorld
        (oneFile "/lease/eth0" "reason=BOUND\nnew_domain_name_servers='1.1.1.1' '8.8.8.8'\n")
        "/lease/eth0").files.get "/run/dhcp-eth0.conf"
      = some ("### Autogenerated by vci-service-dns\n"
          ++ "### Note: Manual changes to this file will be lost.\n"
          ++ "server=1.1.1.1\t# dhcp eth0\nserver=8.8.8.8\t# dhcp eth0\n")
    ∧ (dhcpWatcher.Write
        ⟨⟨"dnsmasq.service", 0⟩, [("/lease/eth0", "eth0")], ⟨"/run/dhcp-", ".conf"⟩⟩
        calmWatchWorld
        (oneFile "/lease/eth0" "reason=BOUND\nnew_domain_name_servers='1.1.1.1' '8.8.8.8'\n")
        "/lease/eth0").reloads = [⟨"dnsmasq.service", 0⟩] := by
  have h := createOrWrite_writes_servers_and_reloads
    ⟨⟨"dnsmasq.service", 0⟩, [("/lease/eth0", "eth0")], ⟨"/run/dhcp-", ".conf"⟩⟩
    calmWatchWorld
    (oneFile "/lease/eth0" "reason=BOUND\nnew_domain_name_servers='1.1.1.1' '8.8.8.8'\n")
    "/lease/eth0" "eth0" "reason=BOUND\nnew_domain_name_servers='1.1.1.1' '8.8.8.8'\n"
    ["1.1.1.1", "8.8.8.8"] ["reason=BOUND".data] [[]]
    (by decide) (by decide) (by decide) (by decide) (by decide) (by decide) rfl (by decide)
    (by decide) rfl rfl rfl
  exact ⟨h.1.trans (by decide), h.2.1⟩

theorem lineBytes_replicate (n : Nat) : lineBytes (List.replicate n (Char.ofNat 120)) = n := by
  induction n with
  | zero => rfl
  | succ k ih =>
    have h1 : Char.utf8Size (Char.ofNat 120) = 1 := by decide
    unfold lineBytes at ih ⊢
    rw [List.replicate_succ, List.map_cons, List.sum_cons, ih, h1]
    omega

theorem containsChars_marker_of_no_n (l : List Char) (hl : ∀ ch ∈ l, ch ≠ Char.ofNat 110) :
    containsChars dhcpMarker.data l = false := by
  have hm : dhcpMarker.data = Char.ofNat 110 :: "ew_domain_name_servers".data := by decide
  rw [hm]
  induction l with
  | nil => rfl
  | cons ch rest ih =>
    have h1 : ¬ Char.ofNat 110 = ch := fun e => hl ch (List.mem_cons_self _ _) e.symm
    simp [containsChars, List.isPrefixOf, h1,
      ih (fun x hx => hl x (List.mem_cons_of_mem _ hx))]

theorem rawLines_longLineLease :
    rawLines longLineLease.data
      = [List.replicate 65536 (Char.ofNat 120), markerLine ["1.1.1.1"]] := by
  have hx : ∀ ch ∈ List.replicate 65536 (Char.ofNat 120),
      (fun ch => ch == newlineChar) ch = false := by
    intro ch hch
    rw [List.eq_of_mem_replicate hch]
    decide
  have hm : splitOnChars (fun ch => ch == newlineChar) (markerLine ["1.1.1.1"])
      = [markerLine ["1.1.1.1"]] := by decide
  unfold rawLines longLineLease
  show splitOnChars (fun ch => ch == newlineChar)
    (List.replicate 65536 (Char.ofNat 120) ++ newlineChar :: markerLine ["1.1.1.1"]) = _
  rw [splitOnChars_append_sep _ _ _ _ hx (by decide), hm]

theorem readDhcpNameservers_longLineLease : readDhcpNameservers ⟨longLineLease, none⟩ = [] := by
  have hlong : maxScanTokenSize ≤ lineBytes (List.replicate 65536 (Char.ofNat 120)) := by
    rw [lineBytes_replicate]
    decide
  rw [readDhcpNameservers_eq_flatMap, leaseLines]
  show (scannedLines (rawLines longLineLease.data)).flatMap _ = []
  rw [rawLines_longLineLease, scannedLines, if_pos hlong]
  rfl

/-- C8, as stated, fails: the lease file of the watched interface `eth0` has a
first line of 65536 letters `x` and the single marker line
`new_domain_name_servers='1.1.1.1'`; no call fails and the forwarding config
is another file.  The scanner stops at the first line with `token too long`,
no nameserver is read, and the write event leaves the forwarding config empty,
without header or `server=` line, and still reloads the forwarding process. -/
theorem createOrWrite_long_line_writes_no_server :
    rawLines longLineLease.data
        = [List.replicate 65536 (Char.ofNat 120)] ++ [markerLine ["1.1.1.1"]] ++ []
      ∧ containsChars dhcpMarker.data (List.replicate 65536 (Char.ofNat 120)) = false
      ∧ (dhcpWatcher.Write
          ⟨⟨"dnsmasq.service", 0⟩, [("/lease/eth0", "eth0")], ⟨"/run/dhcp-", ".conf"⟩⟩
          calmWatchWorld (oneFile "/lease/eth0" longLineLease)
          "/lease/eth0").files.get "/run/dhcp-eth0.conf" = some ""
      ∧ (dhcpWatcher.Write
          ⟨⟨"dnsmasq.service", 0⟩, [("/lease/eth0", "eth0")], ⟨"/run/dhcp-", ".conf"⟩⟩
          calmWatchWorld (oneFile "/lease/eth0" longLineLease)
          "/lease/eth0").files.get "/run/dhcp-eth0.conf"
        ≠ some (unlines (forwardingLines "eth0" ["1.1.1.1"]))
      ∧ (dhcpWatcher.Write
          ⟨⟨"dnsmasq.service", 0⟩, [("/lease/eth0", "eth0")], ⟨"/run/dhcp-", ".conf"⟩⟩
          calmWatchWorld (oneFile "/lease/eth0" longLineLease)
          "/lease/eth0").reloads = [⟨"dnsmasq.service", 0⟩] := by
  have hfile : (oneFile "/lease/eth0" longLineLease).get "/lease/eth0" = some longLineLease := by
    simp [oneFile, Files.get]
  obtain ⟨_, hcw⟩ := writeConffile_of_no_nameservers
    ⟨⟨"dnsmasq.service", 0⟩, [("/lease/eth0", "eth0")], ⟨"/run/dhcp-", ".conf"⟩⟩
    calmWatchWorld (oneFile "/lease/eth0" longLineLease) "/lease/eth0" "eth0" longLineLease
    (by decide) hfile readDhcpNameservers_longLineLease rfl rfl
  have hget : (dhcpWatcher.Write
      ⟨⟨"dnsmasq.service", 0⟩, [("/lease/eth0", "eth0")], ⟨"/run/dhcp-", ".conf"⟩⟩
      calmWatchWorld (oneFile "/lease/eth0" longLineLease)
      "/lease/eth0").files.get "/run/dhcp-eth0.conf" = some "" := by
    unfold dhcpWatcher.Write
    rw [hcw]
    exact Files.get_put_same _ _ _
  refine ⟨by rw [rawLines_longLineLease]; rfl, ?_, hget, ?_, ?_⟩
  · apply containsChars_marker_of_no_n
    intro ch hch
    rw [List.eq_of_mem_replicate hch]
    decide
  · rw [hget]
    decide
  · unfold dhcpWatcher.Write
    rw [hcw]

end VyattaDns
